import Mathlib

/-!
# docker-credential-helpers: `osxkeychain_darwin.c`

A shallow embedding of the C bridge between the credential helper and the
macOS keychain, and the properties of it that the specification states.

Conventions of the embedding.

* A C `char` is a `Char`; `NUL` is the character with code 0.  A `char *`
  argument is represented by the memory found at that address, a
  `List Char`; the C string it denotes is what stands before the first NUL.
* Memory obtained with `malloc` lives in a `Heap`: a partial map from
  addresses (natural numbers) to blocks, the next fresh address, and a sticky `fault` flag
  that records undefined behaviour (invalid or double `free`, out-of-bounds
  or uninitialised access).
* The Security framework (keychain) calls are a parameter, `Platform`: the
  wrappers are translated once, for every behaviour of the platform.
* CoreFoundation strings are lists of characters; the UTF-8 conversion of
  `CFStringGetCString` is the identity at this level.  Reference counting of
  CoreFoundation objects (`CFRelease`) is not modelled.
-/

namespace OSXKeychain

/-! ## C strings -/

abbrev OSStatus := Int
abbrev CFString := List Char

/-- The terminating character of a C string. -/
def NUL : Char := Char.ofNat 0

/-- The C string found at the start of a piece of memory: the characters
before the first NUL. -/
def cstr (mem : List Char) : List Char := mem.takeWhile (fun c => c != NUL)

/-- C `strlen`. -/
def strlen (mem : List Char) : Nat := (cstr mem).length

/-- The bytes that a keychain call reads for a string passed as the pair
`strlen(s), s`: the length parameter is a `UInt32`, to which the C call
converts the `size_t` of `strlen`. -/
def strArg (mem : List Char) : List Char := (cstr mem).take (strlen mem % 2 ^ 32)

/-- C `strncpy(dst, src, n)`: the `n` characters written to `dst`, the string
at `src` cut at `n` characters or padded with NULs up to `n`. -/
def strncpy (src : List Char) (n : Nat) : List Char :=
  (cstr src).take n ++ List.replicate (n - strlen src) NUL

/-! ## Heap -/

/-- A heap block: a `char` buffer of `size` bytes of which the first
`data.length` have been written, or an array of `char *` slots (`none` is a
slot never assigned). -/
inductive Block where
  | chars (size : Nat) (data : List Char)
  | slots (ps : List (Option Nat))
  deriving DecidableEq, Repr

/-- The heap: live blocks by address, the next fresh address, and the fault flag. -/
structure Heap where
  cells : Nat → Option Block
  next : Nat
  fault : Bool

namespace Heap

/-- The empty heap. -/
def empty : Heap := ⟨fun _ => none, 0, false⟩

/-- Replace what is stored at one address. -/
def set (h : Heap) (p : Nat) (b : Option Block) : Heap :=
  { h with cells := fun q => if q = p then b else h.cells q }

/-- Record undefined behaviour. -/
def crash (h : Heap) : Heap := { h with fault := true }

/-- C `malloc(size)` of a `char` buffer: a fresh address, nothing written yet. -/
def malloc (h : Heap) (size : Nat) : Nat × Heap :=
  (h.next, { (h.set h.next (some (Block.chars size []))) with next := h.next + 1 })

/-- C `malloc(sizeof(char *) * n)` of an array of `n` pointers, all unassigned. -/
def mallocSlots (h : Heap) (n : Nat) : Nat × Heap :=
  (h.next, { (h.set h.next (some (Block.slots (List.replicate n none)))) with next := h.next + 1 })

/-- Write `bytes` at the start of the buffer at `p`. -/
def write (h : Heap) (p : Nat) (bytes : List Char) : Heap :=
  match h.cells p with
  | some (Block.chars size old) =>
    if bytes.length ≤ size then
      h.set p (some (Block.chars size (bytes ++ old.drop bytes.length)))
    else h.crash
  | _ => h.crash

/-- The assignment `arr[i] = p`. -/
def setSlot (h : Heap) (arr : Nat) (i : Nat) (p : Nat) : Heap :=
  match h.cells arr with
  | some (Block.slots ps) =>
    if i < ps.length then h.set arr (some (Block.slots (ps.set i (some p)))) else h.crash
  | _ => h.crash

/-- The value of `arr[i]`, when `arr` is a live array, `i` is in range and
the slot has been assigned. -/
def slot (h : Heap) (arr : Nat) (i : Nat) : Option Nat :=
  match h.cells arr with
  | some (Block.slots ps) => (ps.get? i).join
  | _ => none

/-- The bytes written so far in the buffer at `p`. -/
def mem (h : Heap) (p : Nat) : Option (List Char) :=
  match h.cells p with
  | some (Block.chars _ data) => some data
  | _ => none

/-- The C string at `p`: defined when `p` is a live buffer that holds a NUL
among its written bytes. -/
def cstrAt (h : Heap) (p : Nat) : Option (List Char) :=
  match h.mem p with
  | some data => if NUL ∈ data then some (cstr data) else none
  | none => none

/-- C `free(p)`: `free(NULL)` does nothing, freeing a live block removes it,
anything else is undefined behaviour. -/
def free (h : Heap) (p : Option Nat) : Heap :=
  match p with
  | none => h
  | some a =>
    match h.cells a with
    | some _ => h.set a none
    | none => h.crash

/-- C `strdup(src)`: a fresh buffer holding the string at `src` and its NUL. -/
def strdup (h : Heap) (src : List Char) : Nat × Heap :=
  let r := h.malloc (strlen src + 1)
  (r.1, r.2.write r.1 (cstr src ++ [NUL]))

end Heap

/-! ## CoreFoundation strings -/

/-- `CFStringGetCString(str, buffer, bufferSize, kCFStringEncodingUTF8)`:
the bytes stored in the buffer, the string and its NUL, when they fit in
`bufferSize` bytes; `none` when the conversion reports failure.  A NULL
string is reported as a failure. -/
def CFStringGetCString (str : Option CFString) (bufferSize : Nat) : Option (List Char) :=
  match str with
  | none => none
  | some s => if s.length + 1 ≤ bufferSize then some (s ++ [NUL]) else none

/-- `CFStringGetLength`. -/
def CFStringGetLength (s : CFString) : Nat := s.length

/-- `CFStringGetMaximumSizeForEncoding(length, kCFStringEncodingUTF8)`. -/
def CFStringGetMaximumSizeForEncoding (length : Nat) : Nat := 3 * length

/-! ## The platform -/

/-- Attribute tags of a keychain item that the bridge uses. -/
inductive SecItemAttr where
  | kSecLabelItemAttr
  | kSecAccountItemAttr
  deriving DecidableEq, Repr

/-- `struct Server`; `port` is an `unsigned int`. -/
structure Server where
  proto : Nat
  host : List Char
  path : List Char
  port : Nat
  deriving DecidableEq, Repr

/-- The port as the keychain calls receive it: their `port` parameter is a
`UInt16`, to which the C call converts the `unsigned int` of the server. -/
def portArg (server : Server) : Nat := server.port % 2 ^ 16

/-- What `SecKeychainFindInternetPassword` hands back: the status, the value
it stores in `*passwordLength` (`none`: it stores nothing), the memory at the
address it stores in `*passwordData` (the password, followed by whatever
lies behind it), and the item reference. -/
structure FindResult (ι : Type) where
  status : OSStatus
  passwordLength : Option Nat
  passwordData : List Char
  itemRef : ι

/-- What `SecKeychainItemCopyContent` hands back for the one attribute asked:
the status, and the attribute's `length` and the memory at its `data`. -/
structure CopyResult where
  status : OSStatus
  length : Nat
  data : List Char

/-- The attribute dictionary of one item in the result of `SecItemCopyMatching`,
by key, as the loop of `keychain_list` reads it; `none` is a key that
`CFDictionaryGetValue` does not find.  `ptcl` is the text that the format
`%@` gives for the protocol attribute, `port` the `integerValue` of the port
attribute. -/
structure ItemAttrs where
  ptcl : Option CFString
  srvr : Option CFString
  path : Option CFString
  port : Option Int
  acct : Option CFString
  deriving DecidableEq, Repr

/-- The Security framework as the bridge calls it, over a keychain state `σ`
and item references `ι`.  String arguments are passed as the `length` bytes
found at the pointer (`strArg`); the arguments that are constant in the bridge (the
default keychain, no security domain, the default authentication type, no
account in a search) are left out.  `SecKeychainItemFreeContent` returns an
`OSStatus` like the other calls; the bridge discards it. -/
structure Platform (σ ι : Type) where
  SecCopyErrorMessageString : OSStatus → Option CFString
  SecKeychainAddInternetPassword :
    σ → (serverName accountName path : List Char) → (port protocol : Nat) →
      (passwordData : List Char) → OSStatus × ι × σ
  SecKeychainItemModifyContent : σ → ι → SecItemAttr → List Char → OSStatus × σ
  SecKeychainFindInternetPassword :
    σ → (serverName path : List Char) → (port protocol : Nat) → (wantPassword : Bool) →
      FindResult ι × σ
  SecKeychainItemFreeContent : σ → OSStatus × σ
  SecKeychainItemCopyContent : σ → ι → SecItemAttr → CopyResult × σ
  SecKeychainItemDelete : σ → ι → OSStatus × σ
  SecItemCopyMatching : σ → (label : CFString) → OSStatus × List ItemAttrs × σ

/-! ## The bridge -/

/-- `get_error`. -/
def get_error {σ ι : Type} (P : Platform σ ι) (h : Heap) (status : OSStatus) : Nat × Heap :=
  let r := h.malloc 128
  let str := P.SecCopyErrorMessageString status
  match CFStringGetCString str 128 with
  | some bytes => (r.1, r.2.write r.1 bytes)
  | none => (r.1, r.2.write r.1 (strncpy "Unknown error".toList 128))

/-- What a bridge function leaves behind: the returned `char *` (`none` is
NULL, success; otherwise the address of the error message), the caller's
output locations, the keychain and the heap. -/
structure Outcome (σ α : Type) where
  err : Option Nat
  out : α
  keychain : σ
  heap : Heap

/-- The output locations of `keychain_get`: `*username_l`, `*username`,
`*secret_l`, `*secret`. -/
structure GetOut where
  username_l : Nat
  username : Option Nat
  secret_l : Nat
  secret : Option Nat
  deriving DecidableEq, Repr

/-- The output locations of `keychain_list`: `*paths`, `*accts`, `*list_l`. -/
structure ListOut where
  paths : Option Nat
  accts : Option Nat
  list_l : Nat
  deriving DecidableEq, Repr

/-- `keychain_add`. -/
def keychain_add {σ ι : Type} (P : Platform σ ι) (k : σ) (h : Heap) (server : Server)
    (label username secret : List Char) : Outcome σ Unit :=
  let r := P.SecKeychainAddInternetPassword k (strArg server.host) (strArg username)
    (strArg server.path) (portArg server) server.proto (strArg secret)
  if r.1 ≠ 0 then
    let e := get_error P h r.1
    ⟨some e.1, (), r.2.2, e.2⟩
  else
    let m := P.SecKeychainItemModifyContent r.2.2 r.2.1 SecItemAttr.kSecLabelItemAttr (strArg label)
    if m.1 ≠ 0 then
      let e := get_error P h m.1
      ⟨some e.1, (), m.2, e.2⟩
    else
      ⟨none, (), m.2, h⟩

/-- `keychain_get`. -/
def keychain_get {σ ι : Type} (P : Platform σ ι) (k : σ) (h : Heap) (server : Server)
    (out : GetOut) : Outcome σ GetOut :=
  let f := P.SecKeychainFindInternetPassword k (strArg server.host) (strArg server.path)
    (portArg server) server.proto true
  let out1 := { out with secret_l := f.1.passwordLength.getD out.secret_l }
  if f.1.status ≠ 0 then
    let e := get_error P h f.1.status
    ⟨some e.1, out1, f.2, e.2⟩
  else
    let s := h.strdup f.1.passwordData
    let out2 := { out1 with secret := some s.1 }
    let k2 := (P.SecKeychainItemFreeContent f.2).2
    let c := P.SecKeychainItemCopyContent k2 f.1.itemRef SecItemAttr.kSecAccountItemAttr
    if c.1.status ≠ 0 then
      let e := get_error P s.2 c.1.status
      ⟨some e.1, out2, c.2, e.2⟩
    else
      let u := s.2.strdup c.1.data
      let out3 := { out2 with username := some u.1, username_l := c.1.length }
      ⟨none, out3, (P.SecKeychainItemFreeContent c.2).2, u.2⟩

/-- `keychain_delete`. -/
def keychain_delete {σ ι : Type} (P : Platform σ ι) (k : σ) (h : Heap) (server : Server) :
    Outcome σ Unit :=
  let f := P.SecKeychainFindInternetPassword k (strArg server.host) (strArg server.path)
    (portArg server) server.proto false
  if f.1.status ≠ 0 then
    let e := get_error P h f.1.status
    ⟨some e.1, (), f.2, e.2⟩
  else
    let d := P.SecKeychainItemDelete f.2 f.1.itemRef
    if d.1 ≠ 0 then
      let e := get_error P h d.1
      ⟨some e.1, (), d.2, e.2⟩
    else
      ⟨none, (), d.2, h⟩

/-- `CFStringToCharArr`. -/
def CFStringToCharArr (h : Heap) (aString : Option CFString) : Option Nat × Heap :=
  match aString with
  | none => (none, h)
  | some s =>
    let length := CFStringGetLength s
    let maxSize := CFStringGetMaximumSizeForEncoding length + 1
    let r := h.malloc maxSize
    match CFStringGetCString (some s) maxSize with
    | some bytes => (some r.1, r.2.write r.1 bytes)
    | none => (none, r.2)

/-- The text `CFStringCreateWithFormat` gives for a number under `%@`: its
decimal digits, after a minus sign when it is negative. -/
def formatNumber (n : Int) : CFString :=
  match n with
  | Int.ofNat m => Nat.toDigits 10 m
  | Int.negSucc m => '-' :: Nat.toDigits 10 (m + 1)

/-- The two statements `arr[i] = malloc(n); memcpy(arr[i], src, n);` where
`src` is the memory at the source address. -/
def copyBytes (h : Heap) (arr : Nat) (i : Nat) (src : List Char) (n : Nat) : Heap :=
  let r := h.malloc n
  if n ≤ src.length then (r.2.setSlot arr i r.1).write r.1 (src.take n)
  else (r.2.setSlot arr i r.1).crash

/-- The two statements `arr[i] = malloc(strlen(src)+1);
memcpy(arr[i], src, strlen(src)+1);` for a source on the heap; a NULL source
or one without a NUL is undefined behaviour. -/
def copyString (h : Heap) (arr : Nat) (i : Nat) (src : Option Nat) : Heap :=
  match src with
  | none => h.crash
  | some p =>
    match h.mem p with
    | none => h.crash
    | some data =>
      if NUL ∈ data then copyBytes h arr i data (strlen data + 1) else h.crash

/-- The display text that the body of the loop of `keychain_list` builds in
`str` for an item whose protocol attribute is `protocolTmp`. -/
def displayString (protocolTmp : CFString) (currKey : ItemAttrs) : CFString :=
  let protocolStr := protocolTmp
  let protocolTmp :=
    if protocolStr = "htps".toList then "https://".toList else "http://".toList
  let str := protocolTmp
  let str := match currKey.srvr with
    | some serverTmp => str ++ serverTmp
    | none => str
  let str := match currKey.path with
    | some pathTmp => str ++ pathTmp
    | none => str
  match currKey.port with
  | some portTmp => if portTmp ≠ 0 then str ++ ":".toList ++ formatNumber portTmp else str
  | none => str

/-- The body of the loop of `keychain_list`, for index `i` and item `currKey`. -/
def listEntry (h : Heap) (paths accts : Nat) (i : Nat) (currKey : ItemAttrs) : Heap :=
  match currKey.ptcl with
  | none =>
    let path := "0".toList ++ [NUL]
    let acct := "0".toList ++ [NUL]
    let h1 := copyBytes h paths i path (strlen path)
    copyBytes h1 accts i acct (strlen acct)
  | some protocolTmp =>
    let str := displayString protocolTmp currKey
    let acctTmp := match currKey.acct with
      | some a => a
      | none => "account not defined".toList
    let path := CFStringToCharArr h (some str)
    let acct := CFStringToCharArr path.2 (some acctTmp)
    let h1 := copyString acct.2 paths i path.1
    copyString h1 accts i acct.1

/-- The loop of `keychain_list` from index `i` on, over the items left. -/
def listLoop (paths accts : Nat) : Nat → List ItemAttrs → Heap → Heap
  | _, [], h => h
  | i, currKey :: rest, h => listLoop paths accts (i + 1) rest (listEntry h paths accts i currKey)

/-- `keychain_list`.  The count is stored through `(int)numKeys` into an
`unsigned int`: modulo `2 ^ 32`. -/
def keychain_list {σ ι : Type} (P : Platform σ ι) (k : σ) (h : Heap) (credsLabel : List Char)
    (out : ListOut) : Outcome σ ListOut :=
  let q := P.SecItemCopyMatching k (cstr credsLabel)
  if q.1 ≠ 0 then
    let e := get_error P h q.1
    ⟨some e.1, out, q.2.2, e.2⟩
  else
    let result := q.2.1
    let numKeys := result.length
    let pa := h.mallocSlots numKeys
    let ac := pa.2.mallocSlots numKeys
    let h3 := listLoop pa.1 ac.1 0 result ac.2
    ⟨none, { paths := some pa.1, accts := some ac.1, list_l := numKeys % 2 ^ 32 }, q.2.2, h3⟩

/-- The statement `free((*data)[i]);`: reading a slot that is out of range or
was never assigned is undefined behaviour. -/
def freeEntry (data : Nat) (h : Heap) (i : Nat) : Heap :=
  match h.slot data i with
  | some p => h.free (some p)
  | none => h.crash

/-- `freeListData(&data, length)` where `data` is the array.  The loop index
is a C `int`: the model follows the loop for `length < 2 ^ 31`. -/
def freeListData (h : Heap) (data : Nat) (length : Nat) : Heap :=
  let h1 := (List.range length).foldl (freeEntry data) h
  h1.free (some data)

/-! ## Observing the calls -/

/-- A call to the keychain, with the status it returned. -/
inductive Call where
  | addInternetPassword (status : OSStatus)
  | itemModifyContent (status : OSStatus)
  | findInternetPassword (status : OSStatus)
  | itemFreeContent (status : OSStatus)
  | itemCopyContent (status : OSStatus)
  | itemDelete (status : OSStatus)
  | itemCopyMatching (status : OSStatus)
  deriving DecidableEq, Repr

/-- The status a call returned. -/
def Call.status : Call → OSStatus
  | Call.addInternetPassword s => s
  | Call.itemModifyContent s => s
  | Call.findInternetPassword s => s
  | Call.itemFreeContent s => s
  | Call.itemCopyContent s => s
  | Call.itemDelete s => s
  | Call.itemCopyMatching s => s

/-- Whether the bridge reads the status of the call: it does for every call
but `SecKeychainItemFreeContent`, whose result it discards. -/
def Call.isRead : Call → Bool
  | Call.itemFreeContent _ => false
  | _ => true

/-- A call whose status, if the bridge reads it, is zero. -/
def Call.ok (c : Call) : Prop := c.isRead = true → c.status = 0

/-- The platform `P` with a log: every keychain call is appended, in order,
to the list kept next to the keychain state. -/
def traced {σ ι : Type} (P : Platform σ ι) : Platform (σ × List Call) ι where
  SecCopyErrorMessageString := P.SecCopyErrorMessageString
  SecKeychainAddInternetPassword := fun k serverName accountName path port protocol pw =>
    let r := P.SecKeychainAddInternetPassword k.1 serverName accountName path port protocol pw
    (r.1, r.2.1, (r.2.2, k.2 ++ [Call.addInternetPassword r.1]))
  SecKeychainItemModifyContent := fun k item tag data =>
    let r := P.SecKeychainItemModifyContent k.1 item tag data
    (r.1, (r.2, k.2 ++ [Call.itemModifyContent r.1]))
  SecKeychainFindInternetPassword := fun k serverName path port protocol want =>
    let r := P.SecKeychainFindInternetPassword k.1 serverName path port protocol want
    (r.1, (r.2, k.2 ++ [Call.findInternetPassword r.1.status]))
  SecKeychainItemFreeContent := fun k =>
    let r := P.SecKeychainItemFreeContent k.1
    (r.1, (r.2, k.2 ++ [Call.itemFreeContent r.1]))
  SecKeychainItemCopyContent := fun k item tag =>
    let r := P.SecKeychainItemCopyContent k.1 item tag
    (r.1, (r.2, k.2 ++ [Call.itemCopyContent r.1.status]))
  SecKeychainItemDelete := fun k item =>
    let r := P.SecKeychainItemDelete k.1 item
    (r.1, (r.2, k.2 ++ [Call.itemDelete r.1]))
  SecItemCopyMatching := fun k label =>
    let r := P.SecItemCopyMatching k.1 label
    (r.1, r.2.1, (r.2.2, k.2 ++ [Call.itemCopyMatching r.1]))

/-- The reading of "null exactly when every call whose status is read
succeeded" on an outcome that carries the log of its calls: the result is
NULL exactly when every logged call whose status the bridge reads returned
zero; and an error result is the message `get_error` gives for the status of
the last logged call, which is read and not zero, every read status before
it being zero. -/
def ReportsFirstFailure {σ ι α : Type} (P : Platform σ ι) (o : Outcome (σ × List Call) α) : Prop :=
  (o.err = none ↔ ∀ c ∈ o.keychain.2, c.ok) ∧
  (∀ e, o.err = some e →
    ∃ pre c hx, o.keychain.2 = pre ++ [c] ∧ c.isRead = true ∧ c.status ≠ 0 ∧
      (∀ d ∈ pre, d.ok) ∧ get_error P hx c.status = (e, o.heap))

/-! ## A reference keychain

The keychain itself is outside the repository.  The claims about what is
found after an item was added or deleted are settled on this model of it,
which follows the documented behaviour of Keychain Services for internet
passwords: an item is identified by server, account, path, port and protocol
(security domain and authentication type are constant in the bridge); adding
an item with the identity of an existing one is refused; a search ignores an
empty server or path and a zero port or protocol, and gives the first match. -/

/-- An internet-password item. -/
structure KeychainItem where
  server : List Char
  account : List Char
  path : List Char
  port : Nat
  protocol : Nat
  label : List Char
  password : List Char
  deriving DecidableEq, Repr

/-- The identity of an item, used as its reference. -/
structure ItemKey where
  server : List Char
  account : List Char
  path : List Char
  port : Nat
  protocol : Nat
  deriving DecidableEq, Repr

/-- The identity of an item. -/
def KeychainItem.key (it : KeychainItem) : ItemKey :=
  ⟨it.server, it.account, it.path, it.port, it.protocol⟩

abbrev Keychain := List KeychainItem

def errSecDuplicateItem : OSStatus := -25299
def errSecItemNotFound : OSStatus := -25300
def errSecNoSuchAttr : OSStatus := -25303
def errSecInvalidItemRef : OSStatus := -25304

/-- Whether an item answers a search by server, path, port and protocol. -/
def matchesQuery (serverName path : List Char) (port protocol : Nat) (it : KeychainItem) : Bool :=
  (serverName = [] || it.server = serverName) && (path = [] || it.path = path) &&
    (port = 0 || it.port = port) && (protocol = 0 || it.protocol = protocol)

/-- Whether an item answers the search that the bridge makes for `server`. -/
def matchesServer (server : Server) (it : KeychainItem) : Bool :=
  matchesQuery (strArg server.host) (strArg server.path) (portArg server) server.proto it

/-- The four characters of a protocol code. -/
def fourCC (n : Nat) : CFString :=
  [Char.ofNat (n / 2 ^ 24 % 256), Char.ofNat (n / 2 ^ 16 % 256), Char.ofNat (n / 2 ^ 8 % 256),
    Char.ofNat (n % 256)]

/-- The attribute dictionary of an item. -/
def KeychainItem.attrs (it : KeychainItem) : ItemAttrs :=
  { ptcl := if it.protocol = 0 then none else some (fourCC it.protocol)
    srvr := some it.server
    path := some it.path
    port := some (Int.ofNat it.port)
    acct := some it.account }

/-- The reference keychain as a platform.  `messages` is the table of error
messages; `pad` is what lies in memory behind the buffers that the keychain
hands out (they carry a length and no terminator of their own). -/
def refPlatform (messages : OSStatus → Option CFString) (pad : List Char) :
    Platform Keychain ItemKey where
  SecCopyErrorMessageString := messages
  SecKeychainAddInternetPassword := fun k serverName accountName path port protocol pw =>
    let key : ItemKey := ⟨serverName, accountName, path, port, protocol⟩
    if k.any (fun it => it.key = key) then (errSecDuplicateItem, key, k)
    else (0, key, k ++ [⟨serverName, accountName, path, port, protocol, serverName, pw⟩])
  SecKeychainItemModifyContent := fun k item tag data =>
    if k.any (fun it => it.key = item) then
      match tag with
      | SecItemAttr.kSecLabelItemAttr =>
        (0, k.map (fun it => if it.key = item then { it with label := data } else it))
      | SecItemAttr.kSecAccountItemAttr => (errSecNoSuchAttr, k)
    else (errSecInvalidItemRef, k)
  SecKeychainFindInternetPassword := fun k serverName path port protocol want =>
    match k.find? (matchesQuery serverName path port protocol) with
    | some it =>
      (⟨0, if want then some it.password.length else none, it.password ++ pad, it.key⟩, k)
    | none => (⟨errSecItemNotFound, none, [], ⟨serverName, [], path, port, protocol⟩⟩, k)
  SecKeychainItemFreeContent := fun k => (0, k)
  SecKeychainItemCopyContent := fun k item tag =>
    match k.find? (fun it => it.key = item) with
    | some it =>
      match tag with
      | SecItemAttr.kSecLabelItemAttr => (⟨0, it.label.length, it.label ++ pad⟩, k)
      | SecItemAttr.kSecAccountItemAttr => (⟨0, it.account.length, it.account ++ pad⟩, k)
    | none => (⟨errSecInvalidItemRef, 0, []⟩, k)
  SecKeychainItemDelete := fun k item =>
    if k.any (fun it => it.key = item) then (0, k.filter (fun it => it.key ≠ item))
    else (errSecInvalidItemRef, k)
  SecItemCopyMatching := fun k label =>
    let found := k.filter (fun it => it.label = label)
    if found = [] then (errSecItemNotFound, [], k) else (0, found.map KeychainItem.attrs, k)

/-! ## The listing, as the specification words it -/

/-- The items that the label query of `keychain_list` returns. -/
def matchedItems {σ ι : Type} (P : Platform σ ι) (k : σ) (credsLabel : List Char) :
    List ItemAttrs :=
  (P.SecItemCopyMatching k (cstr credsLabel)).2.1

/-- The scheme of the specification: `https://` for the protocol `htps`,
`http://` for every other. -/
def specScheme (protocol : CFString) : CFString :=
  if protocol = "htps".toList then "https://".toList else "http://".toList

/-- The port suffix of the specification: a colon and the decimal port when
the port attribute is present and not zero, nothing otherwise. -/
def specPortSuffix (port : Option Int) : CFString :=
  match port with
  | some n => if n = 0 then [] else ':' :: formatNumber n
  | none => []

/-- The display string of the specification:
scheme, server, path and port suffix, in this order; an absent server or path
is empty. -/
def specDisplayString (protocol : CFString) (item : ItemAttrs) : CFString :=
  specScheme protocol ++ item.srvr.getD [] ++ item.path.getD [] ++ specPortSuffix item.port

/-! ## Concrete runs -/

/-- A platform that gives fixed answers: the search returns `findR`, the
attribute copy returns `copyR`, the label query returns `matching`, every
other call succeeds, and there is no error message for any status. -/
def scripted (findR : FindResult Unit) (copyR : CopyResult) (matching : OSStatus × List ItemAttrs) :
    Platform Unit Unit where
  SecCopyErrorMessageString := fun _ => none
  SecKeychainAddInternetPassword := fun _ _ _ _ _ _ _ => (0, (), ())
  SecKeychainItemModifyContent := fun _ _ _ _ => (0, ())
  SecKeychainFindInternetPassword := fun _ _ _ _ _ _ => (findR, ())
  SecKeychainItemFreeContent := fun _ => (0, ())
  SecKeychainItemCopyContent := fun _ _ _ => (copyR, ())
  SecKeychainItemDelete := fun _ _ => (0, ())
  SecItemCopyMatching := fun _ _ => (matching.1, matching.2, ())

def errSecParam : OSStatus := -50

/-- The platform `P` with `SecKeychainItemFreeContent` returning the status `s`. -/
def withFreeStatus {σ ι : Type} (P : Platform σ ι) (s : OSStatus) : Platform σ ι :=
  { P with SecKeychainItemFreeContent := fun k => (s, (P.SecKeychainItemFreeContent k).2) }

/-- A table with no error message at all. -/
def noMessages : OSStatus → Option CFString := fun _ => none

/-- A server: `https` (`htps`), host `example.com`, path `/v1/`, port 443. -/
def exampleServer : Server := ⟨0x68747073, "example.com".toList, "/v1/".toList, 443⟩

/-- Another server: host `other.example`. -/
def otherServer : Server := ⟨0x68747073, "other.example".toList, "/".toList, 443⟩

/-- The server of `exampleServer` with no port given (port 0). -/
def anyPortServer : Server := ⟨0x68747073, "example.com".toList, "/v1/".toList, 0⟩

/-- A keychain that holds one item for `exampleServer`, of the account `bob`. -/
def bobKeychain : Keychain :=
  [⟨"example.com".toList, "bob".toList, "/v1/".toList, 443, 0x68747073,
    "Docker Credentials".toList, "hunter2".toList⟩]

/-- The output locations of `keychain_get` before a call: nothing stored yet. -/
def noGetOut : GetOut := ⟨0, none, 0, none⟩

/-- The output locations of `keychain_list` before a call: nothing stored yet. -/
def noListOut : ListOut := ⟨none, none, 0⟩

/-- An item with none of the attributes the listing reads. -/
def bareItem : ItemAttrs := ⟨none, none, none, none, none⟩

/-- An `https` item for `example.com`, path `/v1/`, port 443, account `alice`. -/
def aliceItem : ItemAttrs :=
  ⟨some "htps".toList, some "example.com".toList, some "/v1/".toList, some 443,
    some "alice".toList⟩

/-- An item with a protocol attribute and no other. -/
def protocolOnlyItem : ItemAttrs := ⟨some "http".toList, none, none, none, none⟩

/-- A search result that reports a password `pw` found. -/
def foundPassword (pw : List Char) : FindResult Unit := ⟨0, some pw.length, pw, ()⟩

/-! ## What the loop of `keychain_list` stores -/

/-- The block that the body of the loop allocates for `paths[i]`. -/
def pathBlock (currKey : ItemAttrs) : Block :=
  match currKey.ptcl with
  | none => Block.chars 1 "0".toList
  | some protocolTmp =>
    Block.chars ((cstr (displayString protocolTmp currKey)).length + 1)
      (cstr (displayString protocolTmp currKey) ++ [NUL])

/-- The account text of an item with a protocol attribute. -/
def acctString (currKey : ItemAttrs) : CFString :=
  match currKey.acct with
  | some a => a
  | none => "account not defined".toList

/-- The block that the body of the loop allocates for `accts[i]`. -/
def acctBlock (currKey : ItemAttrs) : Block :=
  match currKey.ptcl with
  | none => Block.chars 1 "0".toList
  | some _ =>
    Block.chars ((cstr (acctString currKey)).length + 1) (cstr (acctString currKey) ++ [NUL])

/-- The state of the heap once the loop of `keychain_list` has gone through
the items `done`, of `n` in all, starting from the heap `h0`: the two arrays
at `pp` and `ap` hold the addresses `ps` and `qs` in their first slots, the
blocks at these addresses are those of the items, the addresses are fresh and
distinct, and nothing else that was in `h0` has changed. -/
def ListInv (pp ap : Nat) (n : Nat) (h0 : Heap) (done : List ItemAttrs) (ps qs : List Nat)
    (h : Heap) : Prop :=
  h.fault = h0.fault ∧ h0.next ≤ h.next ∧
  (∀ q, q < h0.next → q ≠ pp → q ≠ ap → h.cells q = h0.cells q) ∧
  ps.length = done.length ∧ qs.length = done.length ∧
  h.cells pp = some (Block.slots (ps.map some ++ List.replicate (n - done.length) none)) ∧
  h.cells ap = some (Block.slots (qs.map some ++ List.replicate (n - done.length) none)) ∧
  (∀ j (hj : j < done.length) (hp : j < ps.length) (hq : j < qs.length),
    h.cells (ps.get ⟨j, hp⟩) = some (pathBlock (done.get ⟨j, hj⟩)) ∧
    h.cells (qs.get ⟨j, hq⟩) = some (acctBlock (done.get ⟨j, hj⟩))) ∧
  (∀ x ∈ ps ++ qs, h0.next ≤ x ∧ x < h.next) ∧
  (ps ++ qs).Nodup

/-! ## Heap lemmas -/

@[simp] theorem Heap.set_cells_same (h : Heap) (p : Nat) (b : Option Block) :
    (h.set p b).cells p = b := by
  simp [Heap.set]

theorem Heap.set_cells_ne (h : Heap) {p q : Nat} (b : Option Block) (hq : q ≠ p) :
    (h.set p b).cells q = h.cells q := by
  simp [Heap.set, hq]

@[simp] theorem Heap.set_fault (h : Heap) (p : Nat) (b : Option Block) :
    (h.set p b).fault = h.fault := rfl

@[simp] theorem Heap.set_next (h : Heap) (p : Nat) (b : Option Block) :
    (h.set p b).next = h.next := rfl

theorem NUL_mem_append_singleton (s : List Char) : NUL ∈ s ++ [NUL] := by
  simp

theorem cstr_length_le (m : List Char) : (cstr m).length ≤ m.length := by
  unfold cstr
  exact (List.takeWhile_sublist _).length_le

theorem cstr_append_NUL_length_le (s : List Char) : (cstr (s ++ [NUL])).length ≤ s.length := by
  unfold cstr
  induction s with
  | nil => simp [List.takeWhile, NUL]
  | cons c t ih =>
    by_cases hc : (c != NUL) = true
    · simp only [List.cons_append, List.takeWhile_cons, hc, if_true, List.length_cons]
      omega
    · simp only [List.cons_append, List.takeWhile_cons, hc]
      simp

/-- What `get_error` leaves in its buffer. -/
theorem get_error_cells {σ ι : Type} (P : Platform σ ι) (h : Heap) (status : OSStatus) :
    (get_error P h status).1 = h.next ∧
    (get_error P h status).2.cells (get_error P h status).1 =
      some (Block.chars 128
        (match P.SecCopyErrorMessageString status with
          | some msg =>
            if msg.length ≤ 127 then msg ++ [NUL]
            else "Unknown error".toList ++ List.replicate 115 NUL
          | none => "Unknown error".toList ++ List.replicate 115 NUL)) := by
  have hu : strncpy "Unknown error".toList 128
      = "Unknown error".toList ++ List.replicate 115 NUL := by decide
  have hl : (strncpy "Unknown error".toList 128).length ≤ 128 := by
    rw [hu]; simp
  unfold get_error CFStringGetCString
  cases hm : P.SecCopyErrorMessageString status with
  | none =>
    simp only [Heap.malloc, Heap.write, Heap.set_cells_same, hl, if_true, hu]
    simp
  | some msg =>
    by_cases hlen : msg.length ≤ 127
    · have h1 : msg.length + 1 ≤ 128 := by omega
      simp only [h1, if_true, hlen, Heap.malloc, Heap.write, Heap.set_cells_same,
        List.length_append, List.length_singleton]
      simp
    · have h1 : ¬ msg.length + 1 ≤ 128 := by omega
      simp only [h1, if_false, hlen, Heap.malloc, Heap.write, Heap.set_cells_same, hl, if_true, hu]
      simp

theorem cstr_append_NUL (s t : List Char) : cstr (s ++ NUL :: t) = cstr s := by
  unfold cstr
  induction s with
  | nil => simp [List.takeWhile]
  | cons c r ih =>
    by_cases hc : (c != NUL) = true
    · simp only [List.cons_append, List.takeWhile_cons, hc, if_true, ih]
    · simp only [List.cons_append, List.takeWhile_cons, hc]
      simp

theorem cstr_unknown_error :
    cstr ("Unknown error".toList ++ List.replicate 115 NUL) = "Unknown error".toList := by
  rw [show List.replicate 115 NUL = NUL :: List.replicate 114 NUL from rfl, cstr_append_NUL]
  decide

theorem Heap.cstrAt_of_cells {h : Heap} {p : Nat} {n : Nat} {data : List Char}
    (hc : h.cells p = some (Block.chars n data)) (hn : NUL ∈ data) :
    h.cstrAt p = some (cstr data) := by
  simp [Heap.cstrAt, Heap.mem, hc, hn]

theorem get_error_traced {σ ι : Type} (P : Platform σ ι) (h : Heap) (status : OSStatus) :
    get_error (traced P) h status = get_error P h status := rfl

/-- C8. `get_error` returns a 128-byte buffer holding the platform's message
for the status and its NUL when there is a message and it fits in the buffer,
and `Unknown error` padded with NULs when there is none or it does not fit;
the C string in the buffer is the message, or `Unknown error`, and in every
case it is NUL-terminated within the buffer and at most 127 bytes long. -/
theorem get_error_message_or_unknown {σ ι : Type} (P : Platform σ ι) (h : Heap)
    (status : OSStatus) :
    (get_error P h status).2.cells (get_error P h status).1 =
      some (Block.chars 128
        (match P.SecCopyErrorMessageString status with
          | some msg =>
            if msg.length ≤ 127 then msg ++ [NUL]
            else "Unknown error".toList ++ List.replicate 115 NUL
          | none => "Unknown error".toList ++ List.replicate 115 NUL)) ∧
    (get_error P h status).2.cstrAt (get_error P h status).1 =
      some (match P.SecCopyErrorMessageString status with
          | some msg => if msg.length ≤ 127 then cstr msg else "Unknown error".toList
          | none => "Unknown error".toList) ∧
    ∃ s, (get_error P h status).2.cstrAt (get_error P h status).1 = some s ∧ s.length ≤ 127 := by
  have hc := (get_error_cells P h status).2
  have hnu : NUL ∈ "Unknown error".toList ++ List.replicate 115 NUL := by
    rw [show List.replicate 115 NUL = NUL :: List.replicate 114 NUL from rfl]
    simp
  have hstr : (get_error P h status).2.cstrAt (get_error P h status).1 =
      some (match P.SecCopyErrorMessageString status with
          | some msg => if msg.length ≤ 127 then cstr msg else "Unknown error".toList
          | none => "Unknown error".toList) := by
    cases hm : P.SecCopyErrorMessageString status with
    | none =>
      rw [hm] at hc
      rw [Heap.cstrAt_of_cells hc hnu, cstr_unknown_error]
    | some msg =>
      rw [hm] at hc
      by_cases hlen : msg.length ≤ 127
      · simp only [hlen, if_true] at hc ⊢
        rw [Heap.cstrAt_of_cells hc (NUL_mem_append_singleton msg), cstr_append_NUL]
      · simp only [hlen, if_false] at hc ⊢
        rw [Heap.cstrAt_of_cells hc hnu, cstr_unknown_error]
  refine ⟨hc, hstr, _, hstr, ?_⟩
  cases hm : P.SecCopyErrorMessageString status with
  | none => simp
  | some msg =>
    by_cases hlen : msg.length ≤ 127
    · simp only [hlen, if_true]
      exact le_trans (cstr_length_le msg) hlen
    · simp [hlen]

/-! ## Null exactly on success -/

theorem traced_add {σ ι : Type} (P : Platform σ ι) (k : σ × List Call)
    (a b c : List Char) (d e : Nat) (f : List Char) :
    (traced P).SecKeychainAddInternetPassword k a b c d e f =
      ((P.SecKeychainAddInternetPassword k.1 a b c d e f).1,
        (P.SecKeychainAddInternetPassword k.1 a b c d e f).2.1,
        ((P.SecKeychainAddInternetPassword k.1 a b c d e f).2.2,
          k.2 ++ [Call.addInternetPassword (P.SecKeychainAddInternetPassword k.1 a b c d e f).1])) :=
  rfl

theorem traced_modify {σ ι : Type} (P : Platform σ ι) (k : σ × List Call)
    (item : ι) (tag : SecItemAttr) (data : List Char) :
    (traced P).SecKeychainItemModifyContent k item tag data =
      ((P.SecKeychainItemModifyContent k.1 item tag data).1,
        ((P.SecKeychainItemModifyContent k.1 item tag data).2,
          k.2 ++ [Call.itemModifyContent (P.SecKeychainItemModifyContent k.1 item tag data).1])) :=
  rfl

theorem traced_find {σ ι : Type} (P : Platform σ ι) (k : σ × List Call)
    (a c : List Char) (d e : Nat) (w : Bool) :
    (traced P).SecKeychainFindInternetPassword k a c d e w =
      ((P.SecKeychainFindInternetPassword k.1 a c d e w).1,
        ((P.SecKeychainFindInternetPassword k.1 a c d e w).2,
          k.2 ++ [Call.findInternetPassword
            (P.SecKeychainFindInternetPassword k.1 a c d e w).1.status])) :=
  rfl

theorem traced_free {σ ι : Type} (P : Platform σ ι) (k : σ × List Call) :
    (traced P).SecKeychainItemFreeContent k =
      ((P.SecKeychainItemFreeContent k.1).1,
        ((P.SecKeychainItemFreeContent k.1).2,
          k.2 ++ [Call.itemFreeContent (P.SecKeychainItemFreeContent k.1).1])) :=
  rfl

theorem traced_copy {σ ι : Type} (P : Platform σ ι) (k : σ × List Call)
    (item : ι) (tag : SecItemAttr) :
    (traced P).SecKeychainItemCopyContent k item tag =
      ((P.SecKeychainItemCopyContent k.1 item tag).1,
        ((P.SecKeychainItemCopyContent k.1 item tag).2,
          k.2 ++ [Call.itemCopyContent (P.SecKeychainItemCopyContent k.1 item tag).1.status])) :=
  rfl

theorem traced_delete {σ ι : Type} (P : Platform σ ι) (k : σ × List Call) (item : ι) :
    (traced P).SecKeychainItemDelete k item =
      ((P.SecKeychainItemDelete k.1 item).1,
        ((P.SecKeychainItemDelete k.1 item).2,
          k.2 ++ [Call.itemDelete (P.SecKeychainItemDelete k.1 item).1])) :=
  rfl

theorem traced_matching {σ ι : Type} (P : Platform σ ι) (k : σ × List Call) (label : CFString) :
    (traced P).SecItemCopyMatching k label =
      ((P.SecItemCopyMatching k.1 label).1, (P.SecItemCopyMatching k.1 label).2.1,
        ((P.SecItemCopyMatching k.1 label).2.2,
          k.2 ++ [Call.itemCopyMatching (P.SecItemCopyMatching k.1 label).1])) :=
  rfl

theorem keychain_add_reports {σ ι : Type} (P : Platform σ ι) (k : σ) (h : Heap) (server : Server)
    (label username secret : List Char) :
    ReportsFirstFailure P (keychain_add (traced P) (k, []) h server label username secret) := by
  unfold ReportsFirstFailure keychain_add
  simp only [traced_add, traced_modify, List.nil_append, List.cons_append]
  split_ifs with h1 h2
  · refine ⟨?_, ?_⟩
    · simp only [ne_eq] at h1
      simp [Call.ok, Call.status, Call.isRead, h1]
    · intro e he
      refine ⟨[], Call.addInternetPassword _, h, rfl, rfl, h1, ?_, ?_⟩
      · simp
      · simp only [Option.some.injEq] at he
        subst he
        rfl
  · refine ⟨?_, ?_⟩
    · simp only [ne_eq] at h2
      simp [Call.ok, Call.status, Call.isRead, h2]
    · intro e he
      simp only [ne_eq, not_not] at h1
      refine ⟨[Call.addInternetPassword 0], Call.itemModifyContent _, h, ?_, rfl, h2, ?_, ?_⟩
      · simp [h1]
      · simp [Call.ok, Call.status, Call.isRead]
      · simp only [Option.some.injEq] at he
        subst he
        rfl
  · simp only [ne_eq, not_not] at h1 h2
    simp [Call.ok, Call.status, Call.isRead, h1, h2]

theorem keychain_get_reports {σ ι : Type} (P : Platform σ ι) (k : σ) (h : Heap) (server : Server)
    (out : GetOut) :
    ReportsFirstFailure P (keychain_get (traced P) (k, []) h server out) := by
  unfold ReportsFirstFailure keychain_get
  simp only [traced_find, traced_copy, traced_free, List.nil_append, List.cons_append,
    List.append_assoc]
  split_ifs with h1 h2
  · refine ⟨?_, ?_⟩
    · simp only [ne_eq] at h1
      simp [Call.ok, Call.status, Call.isRead, h1]
    · intro e he
      refine ⟨[], Call.findInternetPassword _, h, rfl, rfl, h1, ?_, ?_⟩
      · simp
      · simp only [Option.some.injEq] at he
        subst he
        rfl
  · refine ⟨?_, ?_⟩
    · simp only [ne_eq] at h2
      simp [Call.ok, Call.status, Call.isRead, h2]
    · intro e he
      simp only [ne_eq, not_not] at h1
      refine ⟨[Call.findInternetPassword 0,
          Call.itemFreeContent (P.SecKeychainItemFreeContent
            (P.SecKeychainFindInternetPassword k (strArg server.host) (strArg server.path)
              (portArg server) server.proto true).2).1],
        Call.itemCopyContent _,
        (h.strdup (P.SecKeychainFindInternetPassword k (strArg server.host) (strArg server.path)
          (portArg server) server.proto true).1.passwordData).2, ?_, rfl, h2, ?_, ?_⟩
      · simp [h1]
      · simp [Call.ok, Call.status, Call.isRead]
      · simp only [Option.some.injEq] at he
        subst he
        rfl
  · simp only [ne_eq, not_not] at h1 h2
    simp [Call.ok, Call.status, Call.isRead, h1, h2]

theorem keychain_delete_reports {σ ι : Type} (P : Platform σ ι) (k : σ) (h : Heap)
    (server : Server) :
    ReportsFirstFailure P (keychain_delete (traced P) (k, []) h server) := by
  unfold ReportsFirstFailure keychain_delete
  simp only [traced_find, traced_delete, List.nil_append, List.cons_append]
  split_ifs with h1 h2
  · refine ⟨?_, ?_⟩
    · simp only [ne_eq] at h1
      simp [Call.ok, Call.status, Call.isRead, h1]
    · intro e he
      refine ⟨[], Call.findInternetPassword _, h, rfl, rfl, h1, ?_, ?_⟩
      · simp
      · simp only [Option.some.injEq] at he
        subst he
        rfl
  · refine ⟨?_, ?_⟩
    · simp only [ne_eq] at h2
      simp [Call.ok, Call.status, Call.isRead, h2]
    · intro e he
      simp only [ne_eq, not_not] at h1
      refine ⟨[Call.findInternetPassword 0], Call.itemDelete _, h, ?_, rfl, h2, ?_, ?_⟩
      · simp [h1]
      · simp [Call.ok, Call.status, Call.isRead]
      · simp only [Option.some.injEq] at he
        subst he
        rfl
  · simp only [ne_eq, not_not] at h1 h2
    simp [Call.ok, Call.status, Call.isRead, h1, h2]

theorem keychain_list_reports {σ ι : Type} (P : Platform σ ι) (k : σ) (h : Heap)
    (credsLabel : List Char) (out : ListOut) :
    ReportsFirstFailure P (keychain_list (traced P) (k, []) h credsLabel out) := by
  unfold ReportsFirstFailure keychain_list
  simp only [traced_matching, List.nil_append]
  split_ifs with h1
  · refine ⟨?_, ?_⟩
    · simp only [ne_eq] at h1
      simp [Call.ok, Call.status, Call.isRead, h1]
    · intro e he
      refine ⟨[], Call.itemCopyMatching _, h, rfl, rfl, h1, ?_, ?_⟩
      · simp
      · simp only [Option.some.injEq] at he
        subst he
        rfl
  · simp only [ne_eq, not_not] at h1
    simp [Call.ok, Call.status, Call.isRead, h1]

/-- Logging the calls changes nothing else. -/
theorem keychain_add_traced {σ ι : Type} (P : Platform σ ι) (k : σ) (tr : List Call) (h : Heap)
    (server : Server) (label username secret : List Char) :
    (keychain_add (traced P) (k, tr) h server label username secret).err =
        (keychain_add P k h server label username secret).err ∧
      (keychain_add (traced P) (k, tr) h server label username secret).heap =
        (keychain_add P k h server label username secret).heap ∧
      (keychain_add (traced P) (k, tr) h server label username secret).keychain.1 =
        (keychain_add P k h server label username secret).keychain := by
  unfold keychain_add
  simp only [traced_add, traced_modify, get_error_traced]
  split_ifs <;> exact ⟨rfl, rfl, rfl⟩

theorem keychain_get_traced {σ ι : Type} (P : Platform σ ι) (k : σ) (tr : List Call) (h : Heap)
    (server : Server) (out : GetOut) :
    (keychain_get (traced P) (k, tr) h server out).err = (keychain_get P k h server out).err ∧
      (keychain_get (traced P) (k, tr) h server out).out = (keychain_get P k h server out).out ∧
      (keychain_get (traced P) (k, tr) h server out).heap = (keychain_get P k h server out).heap ∧
      (keychain_get (traced P) (k, tr) h server out).keychain.1 =
        (keychain_get P k h server out).keychain := by
  unfold keychain_get
  simp only [traced_find, traced_copy, traced_free, get_error_traced]
  split_ifs <;> exact ⟨rfl, rfl, rfl, rfl⟩

theorem keychain_delete_traced {σ ι : Type} (P : Platform σ ι) (k : σ) (tr : List Call)
    (h : Heap) (server : Server) :
    (keychain_delete (traced P) (k, tr) h server).err = (keychain_delete P k h server).err ∧
      (keychain_delete (traced P) (k, tr) h server).heap = (keychain_delete P k h server).heap ∧
      (keychain_delete (traced P) (k, tr) h server).keychain.1 =
        (keychain_delete P k h server).keychain := by
  unfold keychain_delete
  simp only [traced_find, traced_delete, get_error_traced]
  split_ifs <;> exact ⟨rfl, rfl, rfl⟩

theorem keychain_list_traced {σ ι : Type} (P : Platform σ ι) (k : σ) (tr : List Call)
    (h : Heap) (credsLabel : List Char) (out : ListOut) :
    (keychain_list (traced P) (k, tr) h credsLabel out).err =
        (keychain_list P k h credsLabel out).err ∧
      (keychain_list (traced P) (k, tr) h credsLabel out).out =
        (keychain_list P k h credsLabel out).out ∧
      (keychain_list (traced P) (k, tr) h credsLabel out).heap =
        (keychain_list P k h credsLabel out).heap ∧
      (keychain_list (traced P) (k, tr) h credsLabel out).keychain.1 =
        (keychain_list P k h credsLabel out).keychain := by
  unfold keychain_list
  simp only [traced_matching, get_error_traced]
  split_ifs <;> exact ⟨rfl, rfl, rfl, rfl⟩

/-- The calls of `keychain_add`: the insert alone when it fails, the insert
and then the label update when it succeeds. -/
theorem keychain_add_calls {σ ι : Type} (P : Platform σ ι) (k : σ) (h : Heap) (server : Server)
    (label username secret : List Char) :
    (∃ s, s ≠ 0 ∧
      (keychain_add (traced P) (k, []) h server label username secret).keychain.2 =
        [Call.addInternetPassword s] ∧
      (keychain_add (traced P) (k, []) h server label username secret).err ≠ none) ∨
    (∃ s,
      (keychain_add (traced P) (k, []) h server label username secret).keychain.2 =
        [Call.addInternetPassword 0, Call.itemModifyContent s] ∧
      ((keychain_add (traced P) (k, []) h server label username secret).err = none ↔ s = 0)) := by
  unfold keychain_add
  simp only [traced_add, traced_modify, List.nil_append, List.cons_append]
  split_ifs with h1 h2
  · exact Or.inl ⟨_, h1, rfl, by simp⟩
  · simp only [ne_eq, not_not] at h1
    refine Or.inr ⟨(P.SecKeychainItemModifyContent
        (P.SecKeychainAddInternetPassword k (strArg server.host) (strArg username)
          (strArg server.path) (portArg server) server.proto (strArg secret)).2.2
        (P.SecKeychainAddInternetPassword k (strArg server.host) (strArg username)
          (strArg server.path) (portArg server) server.proto (strArg secret)).2.1
        SecItemAttr.kSecLabelItemAttr (strArg label)).1, ?_, ?_⟩
    · rw [h1]
    · simp only [ne_eq] at h2
      simp [h2]
  · simp only [ne_eq, not_not] at h1 h2
    refine Or.inr ⟨0, ?_, ?_⟩
    · rw [h1, h2]
    · simp

/-! ## The loop of `keychain_list` -/

theorem take_cstr_append_NUL (s : List Char) :
    (s ++ [NUL]).take (strlen (s ++ [NUL]) + 1) = cstr s ++ [NUL] := by
  unfold strlen cstr
  induction s with
  | nil => simp [List.takeWhile, NUL]
  | cons c r ih =>
    by_cases hc : (c != NUL) = true
    · simp only [List.cons_append, List.takeWhile_cons, hc, if_true, List.length_cons,
        List.take_succ_cons, ih]
    · have hc' : c = NUL := by simpa using hc
      subst hc'
      simp [List.takeWhile]

theorem strlen_append_NUL (s : List Char) : strlen (s ++ [NUL]) = (cstr s).length := by
  unfold strlen
  rw [cstr_append_NUL]

theorem Heap.setSlot_eq {h : Heap} {arr : Nat} {ps : List (Option Nat)} (i : Nat) (p : Nat)
    (hc : h.cells arr = some (Block.slots ps)) (hi : i < ps.length) :
    h.setSlot arr i p = h.set arr (some (Block.slots (ps.set i (some p)))) := by
  unfold Heap.setSlot
  rw [hc]
  simp only [hi, if_true]

theorem Heap.write_eq {h : Heap} {p : Nat} {size : Nat} {old : List Char} (bytes : List Char)
    (hc : h.cells p = some (Block.chars size old)) (hlen : bytes.length ≤ size) :
    h.write p bytes = h.set p (some (Block.chars size (bytes ++ old.drop bytes.length))) := by
  unfold Heap.write
  rw [hc]
  simp only [hlen, if_true]

theorem copyBytes_eq {h : Heap} {arr : Nat} {i : Nat} {ps : List (Option Nat)}
    (src : List Char) (n : Nat)
    (hc : h.cells arr = some (Block.slots ps)) (hi : i < ps.length) (hne : arr ≠ h.next)
    (hn : n ≤ src.length) :
    copyBytes h arr i src n =
      { cells := fun q =>
          if q = h.next then some (Block.chars n (src.take n))
          else if q = arr then some (Block.slots (ps.set i (some h.next)))
          else h.cells q
        next := h.next + 1
        fault := h.fault } := by
  unfold copyBytes
  simp only [hn, if_true]
  have h1 : (h.malloc n).2.cells arr = some (Block.slots ps) := by
    simp [Heap.malloc, Heap.set, hne, hc]
  rw [Heap.setSlot_eq i (h.malloc n).1 h1 hi]
  have h2 : ((h.malloc n).2.set arr (some (Block.slots (ps.set i (some (h.malloc n).1))))).cells
      (h.malloc n).1 = some (Block.chars n []) := by
    simp [Heap.malloc, Heap.set, hne.symm]
  have h3 : (src.take n).length ≤ n := by simp
  rw [Heap.write_eq (src.take n) h2 h3]
  simp only [Heap.set, Heap.malloc, List.drop_nil, List.append_nil]
  congr 1
  funext q
  by_cases hq : q = h.next
  · simp [hq]
  · simp [hq]

theorem CFStringToCharArr_eq (h : Heap) (s : CFString) :
    CFStringToCharArr h (some s) =
      (some h.next,
        { cells := fun q =>
            if q = h.next then some (Block.chars (3 * s.length + 1) (s ++ [NUL])) else h.cells q
          next := h.next + 1
          fault := h.fault }) := by
  unfold CFStringToCharArr CFStringGetCString CFStringGetMaximumSizeForEncoding CFStringGetLength
  have hle : s.length + 1 ≤ 3 * s.length + 1 := by omega
  simp only [hle, if_true]
  have h2 : (h.malloc (3 * s.length + 1)).2.cells (h.malloc (3 * s.length + 1)).1
      = some (Block.chars (3 * s.length + 1) []) := by
    simp [Heap.malloc, Heap.set]
  have h3 : (s ++ [NUL]).length ≤ 3 * s.length + 1 := by simp; omega
  rw [Heap.write_eq (s ++ [NUL]) h2 h3]
  simp only [Heap.set, Heap.malloc, List.drop_nil, List.append_nil]
  congr 2
  funext q
  by_cases hq : q = h.next
  · simp [hq]
  · simp [hq]

theorem copyString_eq {h : Heap} {arr : Nat} {i : Nat} {ps : List (Option Nat)}
    {p size : Nat} (s : List Char)
    (hp : h.cells p = some (Block.chars size (s ++ [NUL])))
    (hc : h.cells arr = some (Block.slots ps)) (hi : i < ps.length) (hne : arr ≠ h.next) :
    copyString h arr i (some p) =
      { cells := fun q =>
          if q = h.next then some (Block.chars ((cstr s).length + 1) (cstr s ++ [NUL]))
          else if q = arr then some (Block.slots (ps.set i (some h.next)))
          else h.cells q
        next := h.next + 1
        fault := h.fault } := by
  unfold copyString
  simp only [Heap.mem, hp, NUL_mem_append_singleton, if_true]
  have hn : strlen (s ++ [NUL]) + 1 ≤ (s ++ [NUL]).length := by
    rw [strlen_append_NUL]
    have := cstr_length_le s
    simp
    omega
  rw [copyBytes_eq (s ++ [NUL]) (strlen (s ++ [NUL]) + 1) hc hi hne hn, take_cstr_append_NUL,
    strlen_append_NUL]


/-- What one turn of the loop does to the heap. -/
theorem listEntry_effect {h : Heap} {pp ap i : Nat} {ps qs : List (Option Nat)}
    (currKey : ItemAttrs)
    (hpp : h.cells pp = some (Block.slots ps)) (hap : h.cells ap = some (Block.slots qs))
    (hip : i < ps.length) (hiq : i < qs.length) (hlp : pp < h.next) (hla : ap < h.next)
    (hne : pp ≠ ap) :
    ∃ p a, h.next ≤ p ∧ p < a ∧ a < (listEntry h pp ap i currKey).next ∧
      (listEntry h pp ap i currKey).fault = h.fault ∧
      (listEntry h pp ap i currKey).cells pp = some (Block.slots (ps.set i (some p))) ∧
      (listEntry h pp ap i currKey).cells ap = some (Block.slots (qs.set i (some a))) ∧
      (listEntry h pp ap i currKey).cells p = some (pathBlock currKey) ∧
      (listEntry h pp ap i currKey).cells a = some (acctBlock currKey) ∧
      ∀ q, q < h.next → q ≠ pp → q ≠ ap → (listEntry h pp ap i currKey).cells q = h.cells q := by
  have hs : strlen ("0".toList ++ [NUL]) = 1 := by decide
  have ht : ("0".toList ++ [NUL]).take 1 = "0".toList := by decide
  cases hpt : currKey.ptcl with
  | none =>
    have e1 := copyBytes_eq (h := h) ("0".toList ++ [NUL]) 1 hpp hip (Nat.ne_of_lt hlp)
      (by decide)
    have hap1 : (copyBytes h pp i ("0".toList ++ [NUL]) 1).cells ap = some (Block.slots qs) := by
      rw [e1]
      simp only [Nat.ne_of_lt hla, hne.symm, if_false, hap]
    have hn1 : (copyBytes h pp i ("0".toList ++ [NUL]) 1).next = h.next + 1 := by rw [e1]
    have e2 := copyBytes_eq (h := copyBytes h pp i ("0".toList ++ [NUL]) 1)
      ("0".toList ++ [NUL]) 1 hap1 hiq (by rw [hn1]; omega) (by decide)
    have hL : listEntry h pp ap i currKey =
        copyBytes (copyBytes h pp i ("0".toList ++ [NUL]) 1) ap i ("0".toList ++ [NUL]) 1 := by
      unfold listEntry
      simp only [hpt, hs]
    rw [hL, e2, hn1, e1]
    refine ⟨h.next, h.next + 1, le_refl _, by omega, by simp, rfl, ?_, ?_, ?_, ?_, ?_⟩
    · have h1 : pp ≠ h.next + 1 := by omega
      have h2 : pp ≠ h.next := by omega
      simp only [h1, h2, hne, if_false, if_true]
    · have h1 : ap ≠ h.next + 1 := by omega
      simp only [h1, if_false, if_true]
    · have h1 : h.next ≠ h.next + 1 := by omega
      have h2 : h.next ≠ ap := by omega
      simp only [h1, h2, if_false, if_true, pathBlock, hpt, ht]
    · simp only [if_true, acctBlock, hpt, ht]
    · intro q hq hq1 hq2
      have h1 : q ≠ h.next + 1 := by omega
      have h2 : q ≠ h.next := by omega
      simp only [h1, h2, hq1, hq2, if_false]
  | some protocolTmp =>
    have hL : listEntry h pp ap i currKey =
        copyString
          (copyString
            (CFStringToCharArr (CFStringToCharArr h (some (displayString protocolTmp currKey))).2
              (some (acctString currKey))).2
            pp i (CFStringToCharArr h (some (displayString protocolTmp currKey))).1)
          ap i
          (CFStringToCharArr (CFStringToCharArr h (some (displayString protocolTmp currKey))).2
              (some (acctString currKey))).1 := by
      unfold listEntry
      simp only [hpt]
      rfl
    rw [hL, CFStringToCharArr_eq, CFStringToCharArr_eq]
    simp only []
    generalize hd : displayString protocolTmp currKey = d
    generalize hc : acctString currKey = c
    generalize hh2 : Heap.mk (fun q =>
          if q = h.next + 1 then some (Block.chars (3 * c.length + 1) (c ++ [NUL]))
          else if q = h.next then some (Block.chars (3 * d.length + 1) (d ++ [NUL]))
          else h.cells q) (h.next + 1 + 1) h.fault = h2
    have n2 : h2.next = h.next + 2 := by rw [← hh2]
    have f2 : h2.fault = h.fault := by rw [← hh2]
    have c1 : h2.cells h.next = some (Block.chars (3 * d.length + 1) (d ++ [NUL])) := by
      rw [← hh2]; simp
    have c2 : h2.cells pp = some (Block.slots ps) := by
      have h1 : pp ≠ h.next + 1 := by omega
      have h2' : pp ≠ h.next := by omega
      rw [← hh2]; simp only [h1, h2', if_false, hpp]
    have c3 : h2.cells ap = some (Block.slots qs) := by
      have h1 : ap ≠ h.next + 1 := by omega
      have h2' : ap ≠ h.next := by omega
      rw [← hh2]; simp only [h1, h2', if_false, hap]
    have c4 : h2.cells (h.next + 1) = some (Block.chars (3 * c.length + 1) (c ++ [NUL])) := by
      rw [← hh2]; simp
    have c0 : ∀ q, q < h.next → h2.cells q = h.cells q := by
      intro q hq
      have h4 : q ≠ h.next + 1 := by omega
      have h5 : q ≠ h.next := by omega
      rw [← hh2]; simp only [h4, h5, if_false]
    have e1 := copyString_eq (h := h2) (i := i) d c1 c2 hip (by rw [n2]; omega)
    rw [n2, f2] at e1
    have hn1 : (copyString h2 pp i (some h.next)).next = h.next + 3 := by rw [e1]
    have c5 : (copyString h2 pp i (some h.next)).cells (h.next + 1)
        = some (Block.chars (3 * c.length + 1) (c ++ [NUL])) := by
      rw [e1]
      have h1 : h.next + 1 ≠ h.next + 2 := by omega
      have h3 : h.next + 1 ≠ pp := by omega
      simp only [h1, h3, if_false, c4]
    have c6 : (copyString h2 pp i (some h.next)).cells ap = some (Block.slots qs) := by
      rw [e1]
      have h1 : ap ≠ h.next + 2 := by omega
      simp only [h1, hne.symm, if_false, c3]
    have e2 := copyString_eq (h := copyString h2 pp i (some h.next)) (i := i) c c5 c6 hiq
      (by rw [hn1]; omega)
    rw [e2, hn1, e1]
    refine ⟨h.next + 2, h.next + 3, by omega, by omega, by simp, rfl, ?_, ?_, ?_, ?_, ?_⟩
    · have h1 : pp ≠ h.next + 3 := by omega
      have h3 : pp ≠ h.next + 2 := by omega
      simp only [h1, h3, hne, if_false, if_true]
    · have h1 : ap ≠ h.next + 3 := by omega
      simp only [h1, if_false, if_true]
    · have h1 : h.next + 2 ≠ h.next + 3 := by omega
      have h3 : h.next + 2 ≠ ap := by omega
      simp only [h1, h3, if_false, if_true, pathBlock, hpt, hd]
    · simp only [if_true, acctBlock, hpt, hc]
    · intro q hq hq1 hq2
      have h1 : q ≠ h.next + 3 := by omega
      have h3 : q ≠ h.next + 2 := by omega
      simp only [h1, h3, hq1, hq2, if_false]
      exact c0 q hq

theorem set_length_append_replicate {α : Type} (l : List α) (m : Nat) (x y : α) :
    (l ++ List.replicate (m + 1) x).set l.length y = (l ++ [y]) ++ List.replicate m x := by
  induction l with
  | nil => simp [List.replicate_succ]
  | cons c t ih => simp [ih]

theorem listInv_step {pp ap n : Nat} {h0 h : Heap} {done : List ItemAttrs} {ps qs : List Nat}
    (currKey : ItemAttrs) (hinv : ListInv pp ap n h0 done ps qs h) (hlen : done.length < n)
    (hlp : pp < h0.next) (hla : ap < h0.next) (hne : pp ≠ ap) :
    ∃ p a, ListInv pp ap n h0 (done ++ [currKey]) (ps ++ [p]) (qs ++ [a])
      (listEntry h pp ap done.length currKey) := by
  obtain ⟨hf, hn, hfr, hpl, hql, hcp, hca, hblk, hrng, hnd⟩ := hinv
  have hm : n - done.length = (n - (done.length + 1)) + 1 := by omega
  have hip : done.length < (ps.map some ++ List.replicate (n - done.length) none).length := by
    simp [hpl]; omega
  have hiq : done.length < (qs.map some ++ List.replicate (n - done.length) none).length := by
    simp [hql]; omega
  obtain ⟨p, a, e1, e2, e3, e4, e5, e6, e7, e8, e9⟩ :=
    listEntry_effect currKey hcp hca hip hiq (by omega) (by omega) hne
  refine ⟨p, a, ?_, ?_, ?_, ?_, ?_, ?_, ?_, ?_, ?_, ?_⟩
  · rw [e4, hf]
  · omega
  · intro q hq1 hq2 hq3
    rw [e9 q (by omega) hq2 hq3, hfr q hq1 hq2 hq3]
  · simp [hpl]
  · simp [hql]
  · rw [e5]
    have := set_length_append_replicate (ps.map some) (n - (done.length + 1)) none (some p)
    rw [List.length_map, hpl, ← hm] at this
    rw [this]
    simp
  · rw [e6]
    have := set_length_append_replicate (qs.map some) (n - (done.length + 1)) none (some a)
    rw [List.length_map, hql, ← hm] at this
    rw [this]
    simp
  · intro j hj hp hq
    by_cases hjd : j < done.length
    · have hjp : j < ps.length := by omega
      have hjq : j < qs.length := by omega
      have b := hblk j hjd hjp hjq
      have r1 := hrng (ps.get ⟨j, hjp⟩) (by simp [List.get_mem])
      have r2 := hrng (qs.get ⟨j, hjq⟩) (by simp [List.get_mem])
      simp only [List.get_eq_getElem, List.getElem_append_left hjd, List.getElem_append_left hjp,
        List.getElem_append_left hjq] at b r1 r2 ⊢
      rw [e9 _ r1.2 (by omega) (by omega), e9 _ r2.2 (by omega) (by omega)]
      exact b
    · have hje : j = done.length := by
        simp at hj; omega
      subst hje
      have g1 : (ps ++ [p]).get ⟨done.length, hp⟩ = p := by
        simp [List.get_eq_getElem, ← hpl]
      have g2 : (qs ++ [a]).get ⟨done.length, hq⟩ = a := by
        simp [List.get_eq_getElem, ← hql]
      have g3 : (done ++ [currKey]).get ⟨done.length, hj⟩ = currKey := by
        simp [List.get_eq_getElem]
      rw [g1, g2, g3]
      exact ⟨e7, e8⟩
  · intro x hx
    simp only [List.mem_append, List.mem_singleton] at hx
    rcases hx with (hx | hx) | (hx | hx)
    · have := hrng x (by simp [hx]); omega
    · omega
    · have := hrng x (by simp [hx]); omega
    · omega
  · have hpn : p ∉ ps ++ qs := fun hx => by have := hrng p hx; omega
    have han : a ∉ ps ++ qs := fun hx => by have := hrng a hx; omega
    have hperm : List.Perm ((ps ++ [p]) ++ (qs ++ [a])) (p :: a :: (ps ++ qs)) := by
      have q1 : List.Perm (ps ++ [p]) (p :: ps) := List.perm_append_singleton p ps
      have q2 : List.Perm (qs ++ [a]) (a :: qs) := List.perm_append_singleton a qs
      refine (List.Perm.append q1 q2).trans ?_
      simp only [List.cons_append]
      refine List.Perm.cons p ?_
      exact List.perm_middle
    rw [hperm.nodup_iff]
    simp only [List.nodup_cons, List.mem_cons, not_or]
    exact ⟨⟨by omega, hpn⟩, han, hnd⟩

theorem listLoop_inv {pp ap n : Nat} {h0 : Heap}
    (hlp : pp < h0.next) (hla : ap < h0.next) (hne : pp ≠ ap) :
    ∀ (rest done : List ItemAttrs) (ps qs : List Nat) (h : Heap),
      ListInv pp ap n h0 done ps qs h → done.length + rest.length = n →
      ∃ ps' qs', ListInv pp ap n h0 (done ++ rest) ps' qs'
        (listLoop pp ap done.length rest h) := by
  intro rest
  induction rest with
  | nil =>
    intro done ps qs h hinv _
    exact ⟨ps, qs, by simpa [listLoop] using hinv⟩
  | cons c rest ih =>
    intro done ps qs h hinv hlen
    simp only [List.length_cons] at hlen
    obtain ⟨p, a, hstep⟩ := listInv_step c hinv (by omega) hlp hla hne
    have := ih (done ++ [c]) (ps ++ [p]) (qs ++ [a]) _ hstep (by simp; omega)
    simpa [listLoop] using this

/-- The heap after the two array allocations of `keychain_list`. -/
theorem mallocSlots_twice (h : Heap) (n : Nat) :
    ((h.mallocSlots n).2.mallocSlots n).2.next = h.next + 2 ∧
    ((h.mallocSlots n).2.mallocSlots n).2.fault = h.fault ∧
    (h.mallocSlots n).1 = h.next ∧ ((h.mallocSlots n).2.mallocSlots n).1 = h.next + 1 ∧
    ((h.mallocSlots n).2.mallocSlots n).2.cells h.next =
      some (Block.slots (List.replicate n none)) ∧
    ((h.mallocSlots n).2.mallocSlots n).2.cells (h.next + 1) =
      some (Block.slots (List.replicate n none)) ∧
    ∀ q, q < h.next → ((h.mallocSlots n).2.mallocSlots n).2.cells q = h.cells q := by
  refine ⟨rfl, rfl, rfl, rfl, ?_, ?_, ?_⟩
  · simp [Heap.mallocSlots, Heap.set]
  · simp [Heap.mallocSlots, Heap.set]
  · intro q hq
    have h1 : q ≠ h.next + 1 := by omega
    have h2 : q ≠ h.next := by omega
    simp [Heap.mallocSlots, Heap.set, h1, h2]

/-- A successful `keychain_list`: the result, and the heap it leaves. -/
theorem keychain_list_ok {σ ι : Type} (P : Platform σ ι) (k : σ) (h : Heap)
    (credsLabel : List Char) (out : ListOut)
    (hq : (P.SecItemCopyMatching k (cstr credsLabel)).1 = 0) :
    (keychain_list P k h credsLabel out).err = none ∧
    (keychain_list P k h credsLabel out).out =
      { paths := some h.next, accts := some (h.next + 1),
        list_l := (P.SecItemCopyMatching k (cstr credsLabel)).2.1.length % 2 ^ 32 } ∧
    ∃ ps qs, ListInv h.next (h.next + 1) (P.SecItemCopyMatching k (cstr credsLabel)).2.1.length
      ((h.mallocSlots (P.SecItemCopyMatching k (cstr credsLabel)).2.1.length).2.mallocSlots
        (P.SecItemCopyMatching k (cstr credsLabel)).2.1.length).2
      (P.SecItemCopyMatching k (cstr credsLabel)).2.1 ps qs
      (keychain_list P k h credsLabel out).heap := by
  generalize hitems : (P.SecItemCopyMatching k (cstr credsLabel)).2.1 = items
  obtain ⟨m1, m2, m3, m4, m5, m6, m7⟩ := mallocSlots_twice h items.length
  have hk : keychain_list P k h credsLabel out =
      ⟨none, ListOut.mk (some h.next) (some (h.next + 1)) (items.length % 2 ^ 32),
        (P.SecItemCopyMatching k (cstr credsLabel)).2.2,
        listLoop h.next (h.next + 1) 0 items
          ((h.mallocSlots items.length).2.mallocSlots items.length).2⟩ := by
    unfold keychain_list
    simp only [hq, ne_eq, not_true_eq_false, if_false, hitems]
    rfl
  rw [hk]
  refine ⟨rfl, rfl, ?_⟩
  have hinit : ListInv h.next (h.next + 1) items.length
      ((h.mallocSlots items.length).2.mallocSlots items.length).2 [] [] []
      ((h.mallocSlots items.length).2.mallocSlots items.length).2 := by
    refine ⟨rfl, le_refl _, fun _ _ _ _ => rfl, rfl, rfl, ?_, ?_, ?_, ?_, ?_⟩
    · simpa using m5
    · simpa using m6
    · intro j hj
      simp at hj
    · intro x hx
      simp at hx
    · simp
  have := @listLoop_inv h.next (h.next + 1) items.length
    ((h.mallocSlots items.length).2.mallocSlots items.length).2
    (by rw [m1]; omega) (by rw [m1]; omega) (by omega) items [] [] [] _ hinit (by simp)
  simpa using this

/-! ## Releasing an array -/

theorem get?_length_append_join (pre : List (Option Nat)) (p : Nat) (post : List (Option Nat)) :
    ((pre ++ some p :: post).get? pre.length).join = some p := by
  induction pre with
  | nil => simp
  | cons c r ih => simpa using ih

theorem Heap.slot_eq {h : Heap} {data : Nat} (pre : List (Option Nat)) (p : Nat)
    (post : List (Option Nat))
    (hc : h.cells data = some (Block.slots (pre ++ some p :: post))) :
    h.slot data pre.length = some p := by
  unfold Heap.slot
  rw [hc]
  exact get?_length_append_join pre p post

theorem Heap.free_live {h : Heap} {p : Nat} {b : Block} (hc : h.cells p = some b) :
    h.free (some p) = h.set p none := by
  unfold Heap.free
  simp only [hc]

theorem freeLoop_spec (data : Nat) :
    ∀ (ps : List Nat) (pre : List (Option Nat)) (h : Heap),
      h.cells data = some (Block.slots (pre ++ ps.map some)) → data ∉ ps → ps.Nodup →
      (∀ p ∈ ps, ∃ b, h.cells p = some b) →
      ((List.range' pre.length ps.length).foldl
          (freeEntry data) h).fault = h.fault ∧
      ((List.range' pre.length ps.length).foldl
          (freeEntry data) h).next = h.next ∧
      (∀ p ∈ ps, ((List.range' pre.length ps.length).foldl
          (freeEntry data) h).cells p = none) ∧
      (∀ q, q ∉ ps → ((List.range' pre.length ps.length).foldl
          (freeEntry data) h).cells q = h.cells q) := by
  intro ps
  induction ps with
  | nil =>
    intro pre h _ _ _ _
    simp
  | cons p t ih =>
    intro pre h hc hd hnd hlive
    obtain ⟨b, hb⟩ := hlive p (by simp)
    have hs : h.slot data pre.length = some p := Heap.slot_eq pre p (t.map some) (by simpa using hc)
    have hdp : data ≠ p := fun e => hd (by simp [e])
    have hpt : p ∉ t := (List.nodup_cons.mp hnd).1
    have hc1 : (h.set p none).cells data = some (Block.slots ((pre ++ [some p]) ++ t.map some)) := by
      rw [Heap.set_cells_ne _ _ hdp]
      simpa using hc
    have hl1 : ∀ q ∈ t, ∃ b, (h.set p none).cells q = some b := by
      intro q hq
      have hqp : q ≠ p := fun e => hpt (e ▸ hq)
      rw [Heap.set_cells_ne _ _ hqp]
      exact hlive q (by simp [hq])
    have := ih (pre ++ [some p]) (h.set p none) hc1 (fun e => hd (by simp [e]))
      (List.nodup_cons.mp hnd).2 hl1
    simp only [List.length_append, List.length_singleton] at this
    simp only [List.length_cons, List.range'_succ, List.foldl_cons, freeEntry, hs, Heap.free_live hb]
    obtain ⟨r1, r2, r3, r4⟩ := this
    refine ⟨by rw [r1]; rfl, by rw [r2]; rfl, ?_, ?_⟩
    · intro q hq
      simp only [List.mem_cons] at hq
      rcases hq with hq | hq
      · subst hq
        rw [r4 q hpt]
        simp
      · exact r3 q hq
    · intro q hq
      simp only [List.mem_cons, not_or] at hq
      rw [r4 q hq.2, Heap.set_cells_ne _ _ hq.1]

/-- One call of `freeListData` on an array whose slots hold distinct live
addresses frees these and the array, and touches nothing else. -/
theorem freeListData_spec {h : Heap} {data : Nat} {ps : List Nat}
    (hc : h.cells data = some (Block.slots (ps.map some))) (hd : data ∉ ps) (hnd : ps.Nodup)
    (hlive : ∀ p ∈ ps, ∃ b, h.cells p = some b) :
    (freeListData h data ps.length).fault = h.fault ∧
    (freeListData h data ps.length).next = h.next ∧
    (freeListData h data ps.length).cells data = none ∧
    (∀ p ∈ ps, (freeListData h data ps.length).cells p = none) ∧
    (∀ q, q ≠ data → q ∉ ps → (freeListData h data ps.length).cells q = h.cells q) := by
  obtain ⟨r1, r2, r3, r4⟩ := freeLoop_spec data ps [] h (by simpa using hc) hd hnd hlive
  simp only [List.length_nil, ← List.range_eq_range'] at r1 r2 r3 r4
  have hlive' := r4 data hd
  rw [hc] at hlive'
  unfold freeListData
  simp only []
  rw [Heap.free_live hlive']
  refine ⟨by rw [← r1]; rfl, by rw [← r2]; rfl, by simp, ?_, ?_⟩
  · intro p hp
    have hpd : p ≠ data := fun e => hd (e ▸ hp)
    rw [Heap.set_cells_ne _ _ hpd]
    exact r3 p hp
  · intro q hq1 hq2
    rw [Heap.set_cells_ne _ _ hq1]
    exact r4 q hq2

/-! ## The reference keychain -/

theorem cstr_no_NUL (s : List Char) : ∀ c ∈ cstr s, (c != NUL) = true := by
  unfold cstr
  induction s with
  | nil => simp
  | cons a t ih =>
    intro c hc
    by_cases ha : (a != NUL) = true
    · simp only [List.takeWhile_cons, ha, if_true, List.mem_cons] at hc
      rcases hc with hc | hc
      · rw [hc]; exact ha
      · exact ih c hc
    · simp only [List.takeWhile_cons, ha] at hc
      simp at hc

theorem cstr_cstr_append (s pad : List Char) : cstr (cstr s ++ pad) = cstr s ++ cstr pad := by
  have := cstr_no_NUL s
  unfold cstr at this ⊢
  rw [List.takeWhile_append_of_pos this]

theorem Heap.strdup_eq (h : Heap) (src : List Char) :
    h.strdup src =
      (h.next,
        Heap.mk (fun q =>
          if q = h.next then some (Block.chars (strlen src + 1) (cstr src ++ [NUL]))
          else h.cells q) (h.next + 1) h.fault) := by
  unfold Heap.strdup
  have h2 : (h.malloc (strlen src + 1)).2.cells (h.malloc (strlen src + 1)).1
      = some (Block.chars (strlen src + 1) []) := by
    simp [Heap.malloc, Heap.set]
  have h3 : (cstr src ++ [NUL]).length ≤ strlen src + 1 := by simp [strlen]
  simp only []
  rw [Heap.write_eq (cstr src ++ [NUL]) h2 h3]
  simp only [Heap.set, Heap.malloc, List.drop_nil, List.append_nil]
  congr 2
  funext q
  by_cases hq : q = h.next
  · simp [hq]
  · simp [hq]

theorem matchesServer_of_key {server : Server} {it : KeychainItem} {account : List Char}
    (hk : it.key = ⟨strArg server.host, account, strArg server.path, (portArg server), server.proto⟩) :
    matchesServer server it = true := by
  simp only [KeychainItem.key, ItemKey.mk.injEq] at hk
  obtain ⟨h1, _, h3, h4, h5⟩ := hk
  simp [matchesServer, matchesQuery, h1, h3, h4, h5]

theorem ref_add_new (messages : OSStatus → Option CFString) (pad : List Char) (k : Keychain)
    (s a p : List Char) (port proto : Nat) (pw : List Char)
    (hnew : ∀ it ∈ k, it.key ≠ ⟨s, a, p, port, proto⟩) :
    (refPlatform messages pad).SecKeychainAddInternetPassword k s a p port proto pw =
      (0, ⟨s, a, p, port, proto⟩, k ++ [⟨s, a, p, port, proto, s, pw⟩]) := by
  have hany : k.any (fun it => decide (it.key = (⟨s, a, p, port, proto⟩ : ItemKey))) = false := by
    rw [List.any_eq_false]
    intro it hit
    simpa using hnew it hit
  show (if k.any (fun it => decide (it.key = (⟨s, a, p, port, proto⟩ : ItemKey))) = true
    then _ else _) = _
  rw [hany]
  rfl

theorem ref_modify_label (messages : OSStatus → Option CFString) (pad : List Char) (k : Keychain)
    (it0 : KeychainItem) (data : List Char)
    (hnew : ∀ it ∈ k, it.key ≠ it0.key) :
    (refPlatform messages pad).SecKeychainItemModifyContent (k ++ [it0]) it0.key
        SecItemAttr.kSecLabelItemAttr data =
      (0, k ++ [{ it0 with label := data }]) := by
  have hany : (k ++ [it0]).any (fun it => decide (it.key = it0.key)) = true := by
    simp
  have hmap : k.map (fun it => if it.key = it0.key then { it with label := data } else it)
      = k := by
    conv_rhs => rw [← List.map_id k]
    apply List.map_congr_left
    intro it hit
    simp [hnew it hit]
  show (if (k ++ [it0]).any (fun it => decide (it.key = it0.key)) = true
    then (0, (k ++ [it0]).map
      (fun it => if it.key = it0.key then { it with label := data } else it))
    else _) = _
  rw [hany]
  simp only [if_true, List.map_append, hmap, List.map_cons, List.map_nil]

theorem ref_find_last (messages : OSStatus → Option CFString) (pad : List Char) (k : Keychain)
    (it0 : KeychainItem) (s p : List Char) (port proto : Nat) (want : Bool)
    (hno : ∀ it ∈ k, matchesQuery s p port proto it = false)
    (hyes : matchesQuery s p port proto it0 = true) :
    (refPlatform messages pad).SecKeychainFindInternetPassword (k ++ [it0]) s p port proto want =
      (⟨0, if want then some it0.password.length else none, it0.password ++ pad, it0.key⟩,
        k ++ [it0]) := by
  have hf : (k ++ [it0]).find? (matchesQuery s p port proto) = some it0 := by
    have h1 : k.find? (matchesQuery s p port proto) = none := by
      rw [List.find?_eq_none]
      intro x hx
      simp [hno x hx]
    simp [List.find?_append, h1, List.find?_cons, hyes]
  show (match (k ++ [it0]).find? (matchesQuery s p port proto) with
    | some it => _
    | none => _) = _
  rw [hf]

theorem ref_find_none (messages : OSStatus → Option CFString) (pad : List Char) (k : Keychain)
    (s p : List Char) (port proto : Nat) (want : Bool)
    (hno : ∀ it ∈ k, matchesQuery s p port proto it = false) :
    ((refPlatform messages pad).SecKeychainFindInternetPassword k s p port proto want).1.status =
        errSecItemNotFound ∧
      ((refPlatform messages pad).SecKeychainFindInternetPassword k s p port proto
        want).1.passwordLength = none ∧
      ((refPlatform messages pad).SecKeychainFindInternetPassword k s p port proto want).2 = k := by
  have h1 : k.find? (matchesQuery s p port proto) = none := by
    rw [List.find?_eq_none]
    intro x hx
    simp [hno x hx]
  have : (refPlatform messages pad).SecKeychainFindInternetPassword k s p port proto want =
      (match k.find? (matchesQuery s p port proto) with
        | some it =>
          (⟨0, if want then some it.password.length else none, it.password ++ pad, it.key⟩, k)
        | none => (⟨errSecItemNotFound, none, [], ⟨s, [], p, port, proto⟩⟩, k)) := rfl
  rw [this, h1]
  exact ⟨rfl, rfl, rfl⟩

theorem ref_delete_last (messages : OSStatus → Option CFString) (pad : List Char) (k : Keychain)
    (it0 : KeychainItem) (hnew : ∀ it ∈ k, it.key ≠ it0.key) :
    (refPlatform messages pad).SecKeychainItemDelete (k ++ [it0]) it0.key = (0, k) := by
  have hany : (k ++ [it0]).any (fun it => decide (it.key = it0.key)) = true := by
    simp
  have hfil : (k ++ [it0]).filter (fun it => decide (it.key ≠ it0.key)) = k := by
    rw [List.filter_append]
    have h1 : k.filter (fun it => decide (it.key ≠ it0.key)) = k := by
      rw [List.filter_eq_self]
      intro x hx
      simpa using hnew x hx
    rw [h1]
    simp
  show (if (k ++ [it0]).any (fun it => decide (it.key = it0.key)) = true
    then (0, (k ++ [it0]).filter (fun it => decide (it.key ≠ it0.key))) else _) = _
  rw [hany, hfil]
  rfl

/-- On a keychain with no item for the server, `keychain_add` succeeds and
appends the labelled item. -/
theorem keychain_add_fresh (messages : OSStatus → Option CFString) (pad : List Char)
    (k : Keychain) (h : Heap) (server : Server) (label username secret : List Char)
    (hfresh : ∀ it ∈ k, matchesServer server it = false) :
    keychain_add (refPlatform messages pad) k h server label username secret =
      ⟨none, (),
        k ++ [⟨strArg server.host, strArg username, strArg server.path, (portArg server), server.proto,
          strArg label, strArg secret⟩], h⟩ := by
  have hnk : ∀ it ∈ k, it.key ≠
      ⟨strArg server.host, strArg username, strArg server.path, (portArg server), server.proto⟩ := by
    intro it hit hk
    have := matchesServer_of_key hk
    rw [hfresh it hit] at this
    exact Bool.noConfusion this
  unfold keychain_add
  rw [ref_add_new messages pad k _ _ _ _ _ _ hnk]
  simp only [ne_eq, not_true_eq_false, if_false]
  have := ref_modify_label messages pad k
    ⟨strArg server.host, strArg username, strArg server.path, (portArg server), server.proto,
      strArg server.host, strArg secret⟩ (strArg label) hnk
  simp only [KeychainItem.key] at this
  rw [this]
  simp

theorem cstr_idem (s : List Char) : cstr (cstr s) = cstr s := by
  have := cstr_cstr_append s []
  simpa [cstr] using this

/-! ## The claims -/

/-- C2 as stated fails: the keychain may hold another item that answers the
search for the server.  Adding `alice` for `exampleServer` to a keychain that
holds `bob` for it succeeds, the delete that follows succeeds (it removes one
match), and the get after it succeeds.  The same happens with one account,
for a server given without a port (port 0, which the search ignores) when the
keychain holds an item for the same host on port 443. -/
theorem add_delete_get_counterexample :
    ((keychain_add (refPlatform noMessages []) bobKeychain Heap.empty anyPortServer
      "Docker Credentials".toList "bob".toList "s3cret".toList).err = none ∧
    (keychain_delete (refPlatform noMessages [])
      (keychain_add (refPlatform noMessages []) bobKeychain Heap.empty anyPortServer
        "Docker Credentials".toList "bob".toList "s3cret".toList).keychain
      Heap.empty anyPortServer).err = none ∧
    (keychain_get (refPlatform noMessages [])
      (keychain_delete (refPlatform noMessages [])
        (keychain_add (refPlatform noMessages []) bobKeychain Heap.empty anyPortServer
          "Docker Credentials".toList "bob".toList "s3cret".toList).keychain
        Heap.empty anyPortServer).keychain
      Heap.empty anyPortServer noGetOut).err = none) ∧
    (keychain_add (refPlatform noMessages []) bobKeychain Heap.empty exampleServer
      "Docker Credentials".toList "alice".toList "s3cret".toList).err = none ∧
    (keychain_delete (refPlatform noMessages [])
      (keychain_add (refPlatform noMessages []) bobKeychain Heap.empty exampleServer
        "Docker Credentials".toList "alice".toList "s3cret".toList).keychain
      Heap.empty exampleServer).err = none ∧
    (keychain_get (refPlatform noMessages [])
      (keychain_delete (refPlatform noMessages [])
        (keychain_add (refPlatform noMessages []) bobKeychain Heap.empty exampleServer
          "Docker Credentials".toList "alice".toList "s3cret".toList).keychain
        Heap.empty exampleServer).keychain
      Heap.empty exampleServer noGetOut).err = none := by
  decide

/-- C2, amended.  On the reference keychain, over a keychain in which no item
answers the search that the bridge makes for the server (by host, path, port
as the `UInt16` parameter receives it, and protocol; an empty host or path
and a zero port or protocol fit every item, and the account is not
searched): `keychain_add` succeeds, `keychain_delete`
for the server after it succeeds, and `keychain_get` for the server after that
returns the message of `get_error` for the not-found status and leaves the
output locations as they were: no username and no secret are returned. -/
theorem add_delete_then_get_not_found (messages : OSStatus → Option CFString)
    (pad : List Char) (k : Keychain) (h : Heap) (server : Server)
    (label username secret : List Char) (out : GetOut)
    (hfresh : ∀ it ∈ k, matchesServer server it = false) :
    (keychain_add (refPlatform messages pad) k h server label username secret).err = none ∧
    (keychain_delete (refPlatform messages pad)
      (keychain_add (refPlatform messages pad) k h server label username secret).keychain
      (keychain_add (refPlatform messages pad) k h server label username secret).heap
      server).err = none ∧
    (keychain_get (refPlatform messages pad)
      (keychain_delete (refPlatform messages pad)
        (keychain_add (refPlatform messages pad) k h server label username secret).keychain
        (keychain_add (refPlatform messages pad) k h server label username secret).heap
        server).keychain
      (keychain_delete (refPlatform messages pad)
        (keychain_add (refPlatform messages pad) k h server label username secret).keychain
        (keychain_add (refPlatform messages pad) k h server label username secret).heap
        server).heap
      server out).err
        = some (get_error (refPlatform messages pad) h errSecItemNotFound).1 ∧
    (keychain_get (refPlatform messages pad)
      (keychain_delete (refPlatform messages pad)
        (keychain_add (refPlatform messages pad) k h server label username secret).keychain
        (keychain_add (refPlatform messages pad) k h server label username secret).heap
        server).keychain
      (keychain_delete (refPlatform messages pad)
        (keychain_add (refPlatform messages pad) k h server label username secret).keychain
        (keychain_add (refPlatform messages pad) k h server label username secret).heap
        server).heap
      server out).heap = (get_error (refPlatform messages pad) h errSecItemNotFound).2 ∧
    (keychain_get (refPlatform messages pad)
      (keychain_delete (refPlatform messages pad)
        (keychain_add (refPlatform messages pad) k h server label username secret).keychain
        (keychain_add (refPlatform messages pad) k h server label username secret).heap
        server).keychain
      (keychain_delete (refPlatform messages pad)
        (keychain_add (refPlatform messages pad) k h server label username secret).keychain
        (keychain_add (refPlatform messages pad) k h server label username secret).heap
        server).heap
      server out).out = out := by
  have hnk : ∀ it ∈ k, it.key ≠
      (KeychainItem.mk (strArg server.host) (strArg username) (strArg server.path) (portArg server)
        server.proto (strArg label) (strArg secret)).key := by
    intro it hit hk
    have := @matchesServer_of_key server _ _ hk
    rw [hfresh it hit] at this
    exact Bool.noConfusion this
  have hdel : keychain_delete (refPlatform messages pad)
      (k ++ [⟨strArg server.host, strArg username, strArg server.path, (portArg server), server.proto,
          strArg label, strArg secret⟩]) h server = ⟨none, (), k, h⟩ := by
    unfold keychain_delete
    rw [ref_find_last messages pad k
      ⟨strArg server.host, strArg username, strArg server.path, (portArg server), server.proto,
        strArg label, strArg secret⟩ _ _ _ _ false hfresh (matchesServer_of_key rfl)]
    simp only [ne_eq, not_true_eq_false, if_false]
    rw [ref_delete_last messages pad k _ hnk]
    simp
  obtain ⟨f1, f2, f3⟩ := ref_find_none messages pad k (strArg server.host) (strArg server.path)
    (portArg server) server.proto true hfresh
  have hget : keychain_get (refPlatform messages pad) k h server out =
      ⟨some (get_error (refPlatform messages pad) h errSecItemNotFound).1, out, k,
        (get_error (refPlatform messages pad) h errSecItemNotFound).2⟩ := by
    unfold keychain_get
    have hne : errSecItemNotFound ≠ 0 := by decide
    simp only [f1, f2, f3, ne_eq, hne, not_false_eq_true, if_true, Option.getD_none]
  rw [keychain_add_fresh messages pad k h server label username secret hfresh]
  simp only []
  rw [hdel]
  simp only []
  rw [hget]
  exact ⟨trivial, trivial, rfl, rfl, rfl⟩

/-- Witness of C2, amended. -/
theorem add_delete_then_get_not_found_witness :
    (∀ it ∈ bobKeychain, matchesServer otherServer it = false) ∧
    (keychain_get (refPlatform noMessages [])
      (keychain_delete (refPlatform noMessages [])
        (keychain_add (refPlatform noMessages []) bobKeychain Heap.empty otherServer
          "Docker Credentials".toList "alice".toList "s3cret".toList).keychain
        (keychain_add (refPlatform noMessages []) bobKeychain Heap.empty otherServer
          "Docker Credentials".toList "alice".toList "s3cret".toList).heap
        otherServer).keychain
      (keychain_delete (refPlatform noMessages [])
        (keychain_add (refPlatform noMessages []) bobKeychain Heap.empty otherServer
          "Docker Credentials".toList "alice".toList "s3cret".toList).keychain
        (keychain_add (refPlatform noMessages []) bobKeychain Heap.empty otherServer
          "Docker Credentials".toList "alice".toList "s3cret".toList).heap
        otherServer).heap
      otherServer noGetOut).out = noGetOut :=
  ⟨by decide,
    (add_delete_then_get_not_found noMessages [] bobKeychain Heap.empty otherServer
      "Docker Credentials".toList "alice".toList "s3cret".toList noGetOut (by decide)).2.2.2.2⟩

/-- What a successful `keychain_list` leaves, read slot by slot. -/
theorem keychain_list_entries {σ ι : Type} (P : Platform σ ι) (k : σ) (h : Heap)
    (credsLabel : List Char) (out : ListOut)
    (hq : (P.SecItemCopyMatching k (cstr credsLabel)).1 = 0) :
    (keychain_list P k h credsLabel out).err = none ∧
    (keychain_list P k h credsLabel out).out.paths = some h.next ∧
    (keychain_list P k h credsLabel out).out.accts = some (h.next + 1) ∧
    (keychain_list P k h credsLabel out).out.list_l =
      (P.SecItemCopyMatching k (cstr credsLabel)).2.1.length % 2 ^ 32 ∧
    (keychain_list P k h credsLabel out).heap.fault = h.fault ∧
    ∃ ps qs : List Nat,
      ps.length = (P.SecItemCopyMatching k (cstr credsLabel)).2.1.length ∧
      qs.length = (P.SecItemCopyMatching k (cstr credsLabel)).2.1.length ∧
      (keychain_list P k h credsLabel out).heap.cells h.next = some (Block.slots (ps.map some)) ∧
      (keychain_list P k h credsLabel out).heap.cells (h.next + 1)
        = some (Block.slots (qs.map some)) ∧
      (∀ i (hi : i < (P.SecItemCopyMatching k (cstr credsLabel)).2.1.length),
        ∃ p a, (keychain_list P k h credsLabel out).heap.slot h.next i = some p ∧
          (keychain_list P k h credsLabel out).heap.slot (h.next + 1) i = some a ∧
          p ∈ ps ∧ a ∈ qs ∧
          (keychain_list P k h credsLabel out).heap.cells p =
            some (pathBlock ((P.SecItemCopyMatching k (cstr credsLabel)).2.1.get ⟨i, hi⟩)) ∧
          (keychain_list P k h credsLabel out).heap.cells a =
            some (acctBlock ((P.SecItemCopyMatching k (cstr credsLabel)).2.1.get ⟨i, hi⟩))) ∧
      (∀ x ∈ ps ++ qs, h.next + 2 ≤ x ∧ ∃ b, (keychain_list P k h credsLabel out).heap.cells x
        = some b) ∧
      (ps ++ qs).Nodup ∧
      (∀ q, q < h.next → (keychain_list P k h credsLabel out).heap.cells q = h.cells q) := by
  obtain ⟨e1, e2, ps, qs, hinv⟩ := keychain_list_ok P k h credsLabel out hq
  obtain ⟨m1, m2, m3, m4, m5, m6, m7⟩ :=
    mallocSlots_twice h (P.SecItemCopyMatching k (cstr credsLabel)).2.1.length
  obtain ⟨hf, hn, hfr, hpl, hql, hcp, hca, hblk, hrng, hnd⟩ := hinv
  simp only [Nat.sub_self, List.replicate_zero, List.append_nil] at hcp hca
  have hslot : ∀ (l : List Nat) (i : Nat) (hi : i < l.length),
      ((l.map some).get? i).join = some (l.get ⟨i, hi⟩) := by
    intro l i hi
    simp [List.getElem?_eq_getElem hi]
  refine ⟨e1, by rw [e2], by rw [e2], by rw [e2], by rw [hf, m2], ps, qs, hpl, hql, hcp, hca,
    ?_, ?_, hnd, ?_⟩
  · intro i hi
    have hip : i < ps.length := by omega
    have hiq : i < qs.length := by omega
    refine ⟨ps.get ⟨i, hip⟩, qs.get ⟨i, hiq⟩, ?_, ?_, List.get_mem _ _ _, List.get_mem _ _ _,
      (hblk i hi hip hiq).1, (hblk i hi hip hiq).2⟩
    · unfold Heap.slot
      rw [hcp]
      exact hslot ps i hip
    · unfold Heap.slot
      rw [hca]
      exact hslot qs i hiq
  · intro x hx
    have r := hrng x hx
    rw [m1] at r
    refine ⟨r.1, ?_⟩
    simp only [List.mem_append] at hx
    rcases hx with hx | hx
    · obtain ⟨n, hn'⟩ := List.mem_iff_get.mp hx
      have := (hblk n.1 (by have := n.2; omega) n.2 (by have := n.2; omega)).1
      rw [← hn']
      exact ⟨_, this⟩
    · obtain ⟨n, hn'⟩ := List.mem_iff_get.mp hx
      have := (hblk n.1 (by have := n.2; omega) (by have := n.2; omega) n.2).2
      rw [← hn']
      exact ⟨_, this⟩
  · intro q hq'
    rw [hfr q (by rw [m1]; omega) (by omega) (by omega)]
    exact m7 q hq'

/-! ## The display string -/

theorem displayString_eq_spec (protocol : CFString) (item : ItemAttrs) :
    displayString protocol item = specDisplayString protocol item := by
  unfold displayString specDisplayString specScheme specPortSuffix
  cases item.srvr <;> cases item.path <;> cases hport : item.port <;>
    simp [hport] <;> split_ifs <;> simp_all

theorem digitChar_ne_NUL (n : Nat) (hn : n < 10) : Nat.digitChar n ≠ NUL := by
  interval_cases n <;> decide

theorem toDigitsCore_no_NUL : ∀ (fuel n : Nat) (ds : List Char),
    NUL ∉ ds → NUL ∉ Nat.toDigitsCore 10 fuel n ds := by
  intro fuel
  induction fuel with
  | zero => intro n ds hds; simpa [Nat.toDigitsCore] using hds
  | succ f ih =>
    intro n ds hds
    have hcons : NUL ∉ Nat.digitChar (n % 10) :: ds := by
      simp only [List.mem_cons, not_or]
      exact ⟨fun e => digitChar_ne_NUL _ (Nat.mod_lt _ (by decide)) e.symm, hds⟩
    unfold Nat.toDigitsCore
    simp only []
    split_ifs
    · exact hcons
    · exact ih _ _ hcons

theorem formatNumber_no_NUL (n : Int) : NUL ∉ formatNumber n := by
  unfold formatNumber
  cases n with
  | ofNat m => exact toDigitsCore_no_NUL _ _ _ (by simp)
  | negSucc m =>
    simp only [List.mem_cons, not_or]
    exact ⟨by decide, toDigitsCore_no_NUL _ _ _ (by simp)⟩

theorem cstr_of_no_NUL {s : List Char} (hs : NUL ∉ s) : cstr s = s := by
  unfold cstr
  rw [List.takeWhile_eq_self_iff]
  intro c hc
  have : c ≠ NUL := fun e => hs (e ▸ hc)
  simpa using this

theorem specDisplayString_no_NUL (protocol : CFString) (item : ItemAttrs)
    (hs : NUL ∉ item.srvr.getD []) (hp : NUL ∉ item.path.getD []) :
    NUL ∉ specDisplayString protocol item := by
  unfold specDisplayString specScheme specPortSuffix
  have h1 : NUL ∉ "https://".toList := by decide
  have h2 : NUL ∉ "http://".toList := by decide
  have h3 : ∀ n : Int, NUL ∉ (':' :: formatNumber n) := by
    intro n
    simp only [List.mem_cons, not_or]
    exact ⟨by decide, formatNumber_no_NUL n⟩
  simp only [List.mem_append, not_or]
  refine ⟨⟨⟨?_, hs⟩, hp⟩, ?_⟩
  · split_ifs
    · exact h1
    · exact h2
  · cases item.port with
    | none => simp
    | some n =>
      simp only []
      split_ifs
      · simp
      · exact h3 n

/-- C3. Whenever the label query succeeds with `N` matched items,
`keychain_list` returns NULL, stores `N` in `*list_l` (`N` within the range
of the `unsigned int` count: what is stored is `N` modulo `2 ^ 32`), and
stores in `*paths` and `*accts` two arrays of exactly `N` slots; for every
index `i < N` both `paths[i]` and `accts[i]` are assigned, and the blocks
they point to are those the loop builds from the `i`-th matched item
(`pathBlock`, `acctBlock`).  No undefined behaviour is met on the way. -/
theorem keychain_list_one_pair_per_item {σ ι : Type} (P : Platform σ ι) (k : σ) (h : Heap)
    (credsLabel : List Char) (out : ListOut)
    (hq : (P.SecItemCopyMatching k (cstr credsLabel)).1 = 0) :
    (keychain_list P k h credsLabel out).err = none ∧
    (keychain_list P k h credsLabel out).out.list_l
      = (matchedItems P k credsLabel).length % 2 ^ 32 ∧
    ((matchedItems P k credsLabel).length < 2 ^ 32 →
      (keychain_list P k h credsLabel out).out.list_l = (matchedItems P k credsLabel).length) ∧
    (keychain_list P k h credsLabel out).heap.fault = h.fault ∧
    ∃ pp ap slotsP slotsA,
      (keychain_list P k h credsLabel out).out.paths = some pp ∧
      (keychain_list P k h credsLabel out).out.accts = some ap ∧
      (keychain_list P k h credsLabel out).heap.cells pp = some (Block.slots slotsP) ∧
      (keychain_list P k h credsLabel out).heap.cells ap = some (Block.slots slotsA) ∧
      slotsP.length = (matchedItems P k credsLabel).length ∧
      slotsA.length = (matchedItems P k credsLabel).length ∧
      ∀ i (hi : i < (matchedItems P k credsLabel).length),
        ∃ p a, (keychain_list P k h credsLabel out).heap.slot pp i = some p ∧
          (keychain_list P k h credsLabel out).heap.slot ap i = some a ∧
          (keychain_list P k h credsLabel out).heap.cells p =
            some (pathBlock ((matchedItems P k credsLabel).get ⟨i, hi⟩)) ∧
          (keychain_list P k h credsLabel out).heap.cells a =
            some (acctBlock ((matchedItems P k credsLabel).get ⟨i, hi⟩)) := by
  obtain ⟨e1, e2, e3, e4, e5, ps, qs, hpl, hql, hcp, hca, hent, _, _, _⟩ :=
    keychain_list_entries P k h credsLabel out hq
  refine ⟨e1, e4, ?_, e5, h.next, h.next + 1, ps.map some, qs.map some, e2, e3, hcp, hca,
    by simpa using hpl, by simpa using hql, ?_⟩
  · intro hN
    rw [e4]
    exact Nat.mod_eq_of_lt hN
  · intro i hi
    obtain ⟨p, a, h1, h2, _, _, h5, h6⟩ := hent i hi
    exact ⟨p, a, h1, h2, h5, h6⟩

/-- Witness of C3: a query that matches two items. -/
theorem keychain_list_one_pair_per_item_witness :
    ((scripted (foundPassword []) ⟨0, 0, []⟩ (0, [aliceItem, bareItem])).SecItemCopyMatching ()
      (cstr "Docker Credentials".toList)).1 = 0 ∧
    (keychain_list (scripted (foundPassword []) ⟨0, 0, []⟩ (0, [aliceItem, bareItem])) ()
      Heap.empty "Docker Credentials".toList noListOut).out.list_l = 2 :=
  ⟨rfl,
    (keychain_list_one_pair_per_item
      (scripted (foundPassword []) ⟨0, 0, []⟩ (0, [aliceItem, bareItem])) () Heap.empty
      "Docker Credentials".toList noListOut rfl).2.2.1 (by decide)⟩

/-- C4. For every matched item that has a protocol attribute, the C string that
`keychain_list` stores for its path is the C string of the display string of
the specification: scheme, then server, then path, then port suffix.  When
the server and path attributes hold no NUL character it is that display
string itself. -/
theorem keychain_list_display_string {σ ι : Type} (P : Platform σ ι) (k : σ) (h : Heap)
    (credsLabel : List Char) (out : ListOut)
    (hq : (P.SecItemCopyMatching k (cstr credsLabel)).1 = 0)
    (i : Nat) (hi : i < (matchedItems P k credsLabel).length) (protocol : CFString)
    (hp : ((matchedItems P k credsLabel).get ⟨i, hi⟩).ptcl = some protocol) :
    ∃ pp p,
      (keychain_list P k h credsLabel out).out.paths = some pp ∧
      (keychain_list P k h credsLabel out).heap.slot pp i = some p ∧
      (keychain_list P k h credsLabel out).heap.cstrAt p =
        some (cstr (specDisplayString protocol ((matchedItems P k credsLabel).get ⟨i, hi⟩))) ∧
      (NUL ∉ ((matchedItems P k credsLabel).get ⟨i, hi⟩).srvr.getD [] →
        NUL ∉ ((matchedItems P k credsLabel).get ⟨i, hi⟩).path.getD [] →
        (keychain_list P k h credsLabel out).heap.cstrAt p =
          some (specDisplayString protocol ((matchedItems P k credsLabel).get ⟨i, hi⟩))) := by
  obtain ⟨_, e2, _, _, _, ps, qs, _, _, _, _, hent, _, _, _⟩ :=
    keychain_list_entries P k h credsLabel out hq
  obtain ⟨p, a, h1, _, _, _, h5, _⟩ := hent i hi
  have hblk : (keychain_list P k h credsLabel out).heap.cells p =
      some (Block.chars
        ((cstr (specDisplayString protocol ((matchedItems P k credsLabel).get ⟨i, hi⟩))).length + 1)
        (cstr (specDisplayString protocol ((matchedItems P k credsLabel).get ⟨i, hi⟩)) ++ [NUL]))
      := by
    rw [h5]
    unfold pathBlock
    simp only [matchedItems] at hp ⊢
    rw [hp]
    simp only [displayString_eq_spec]
  have hstr := Heap.cstrAt_of_cells hblk (NUL_mem_append_singleton _)
  rw [cstr_append_NUL, cstr_idem] at hstr
  refine ⟨h.next, p, e2, h1, hstr, ?_⟩
  intro hs hpath
  rw [hstr, cstr_of_no_NUL (specDisplayString_no_NUL protocol _ hs hpath)]

/-- Witness of C4: the item of `alice` is listed as `https://example.com/v1/:443`. -/
theorem keychain_list_display_string_witness :
    ((scripted (foundPassword []) ⟨0, 0, []⟩ (0, [aliceItem, bareItem])).SecItemCopyMatching ()
      (cstr "Docker Credentials".toList)).1 = 0 ∧
    aliceItem.ptcl = some "htps".toList ∧
    specDisplayString "htps".toList aliceItem = "https://example.com/v1/:443".toList ∧
    ∃ pp p,
      (keychain_list (scripted (foundPassword []) ⟨0, 0, []⟩ (0, [aliceItem, bareItem])) ()
        Heap.empty "Docker Credentials".toList noListOut).out.paths = some pp ∧
      (keychain_list (scripted (foundPassword []) ⟨0, 0, []⟩ (0, [aliceItem, bareItem])) ()
        Heap.empty "Docker Credentials".toList noListOut).heap.slot pp 0 = some p ∧
      (keychain_list (scripted (foundPassword []) ⟨0, 0, []⟩ (0, [aliceItem, bareItem])) ()
        Heap.empty "Docker Credentials".toList noListOut).heap.cstrAt p =
          some "https://example.com/v1/:443".toList := by
  have hspec : specDisplayString "htps".toList aliceItem = "https://example.com/v1/:443".toList := by
    decide
  refine ⟨rfl, rfl, hspec, ?_⟩
  obtain ⟨pp, p, h1, h2, _, h4⟩ :=
    keychain_list_display_string
      (scripted (foundPassword []) ⟨0, 0, []⟩ (0, [aliceItem, bareItem])) () Heap.empty
      "Docker Credentials".toList noListOut rfl 0 (by decide) "htps".toList rfl
  refine ⟨pp, p, h1, h2, ?_⟩
  rw [← hspec]
  exact h4 (by decide) (by decide)

/-- C5 on the code: for every matched item without a protocol attribute, the
blocks `keychain_list` allocates for `paths[i]` and `accts[i]` are one byte
long and hold the character `0` alone: there is no terminating NUL, and
neither block holds a C string. -/
theorem keychain_list_placeholder_unterminated {σ ι : Type} (P : Platform σ ι) (k : σ)
    (h : Heap) (credsLabel : List Char) (out : ListOut)
    (hq : (P.SecItemCopyMatching k (cstr credsLabel)).1 = 0)
    (i : Nat) (hi : i < (matchedItems P k credsLabel).length)
    (hp : ((matchedItems P k credsLabel).get ⟨i, hi⟩).ptcl = none) :
    ∃ pp ap p a,
      (keychain_list P k h credsLabel out).out.paths = some pp ∧
      (keychain_list P k h credsLabel out).out.accts = some ap ∧
      (keychain_list P k h credsLabel out).heap.slot pp i = some p ∧
      (keychain_list P k h credsLabel out).heap.slot ap i = some a ∧
      (keychain_list P k h credsLabel out).heap.cells p = some (Block.chars 1 "0".toList) ∧
      (keychain_list P k h credsLabel out).heap.cells a = some (Block.chars 1 "0".toList) ∧
      (keychain_list P k h credsLabel out).heap.cstrAt p = none ∧
      (keychain_list P k h credsLabel out).heap.cstrAt a = none := by
  obtain ⟨_, e2, e3, _, _, ps, qs, _, _, _, _, hent, _, _, _⟩ :=
    keychain_list_entries P k h credsLabel out hq
  obtain ⟨p, a, h1, h2, _, _, h5, h6⟩ := hent i hi
  simp only [matchedItems] at hp
  simp only [pathBlock, hp] at h5
  simp only [acctBlock, hp] at h6
  have hn : NUL ∉ "0".toList := by decide
  refine ⟨h.next, h.next + 1, p, a, e2, e3, h1, h2, h5, h6, ?_, ?_⟩
  · simp only [Heap.cstrAt, Heap.mem, h5, hn, if_false]
  · simp only [Heap.cstrAt, Heap.mem, h6, hn, if_false]

/-- Witness of C5 on the code: the second of two matched items has no protocol. -/
theorem keychain_list_placeholder_unterminated_witness :
    ((scripted (foundPassword []) ⟨0, 0, []⟩ (0, [aliceItem, bareItem])).SecItemCopyMatching ()
      (cstr "Docker Credentials".toList)).1 = 0 ∧
    bareItem.ptcl = none ∧
    ∃ pp ap p a,
      (keychain_list (scripted (foundPassword []) ⟨0, 0, []⟩ (0, [aliceItem, bareItem])) ()
        Heap.empty "Docker Credentials".toList noListOut).out.paths = some pp ∧
      (keychain_list (scripted (foundPassword []) ⟨0, 0, []⟩ (0, [aliceItem, bareItem])) ()
        Heap.empty "Docker Credentials".toList noListOut).out.accts = some ap ∧
      (keychain_list (scripted (foundPassword []) ⟨0, 0, []⟩ (0, [aliceItem, bareItem])) ()
        Heap.empty "Docker Credentials".toList noListOut).heap.slot pp 1 = some p ∧
      (keychain_list (scripted (foundPassword []) ⟨0, 0, []⟩ (0, [aliceItem, bareItem])) ()
        Heap.empty "Docker Credentials".toList noListOut).heap.slot ap 1 = some a ∧
      (keychain_list (scripted (foundPassword []) ⟨0, 0, []⟩ (0, [aliceItem, bareItem])) ()
        Heap.empty "Docker Credentials".toList noListOut).heap.cells p
          = some (Block.chars 1 "0".toList) ∧
      (keychain_list (scripted (foundPassword []) ⟨0, 0, []⟩ (0, [aliceItem, bareItem])) ()
        Heap.empty "Docker Credentials".toList noListOut).heap.cells a
          = some (Block.chars 1 "0".toList) ∧
      (keychain_list (scripted (foundPassword []) ⟨0, 0, []⟩ (0, [aliceItem, bareItem])) ()
        Heap.empty "Docker Credentials".toList noListOut).heap.cstrAt p = none ∧
      (keychain_list (scripted (foundPassword []) ⟨0, 0, []⟩ (0, [aliceItem, bareItem])) ()
        Heap.empty "Docker Credentials".toList noListOut).heap.cstrAt a = none :=
  ⟨rfl, rfl,
    keychain_list_placeholder_unterminated
      (scripted (foundPassword []) ⟨0, 0, []⟩ (0, [aliceItem, bareItem])) () Heap.empty
      "Docker Credentials".toList noListOut rfl 1 (by decide) rfl⟩

/-- C6 as stated fails: an item with neither a protocol nor an account attribute
is listed with the one-byte placeholder `0` for its account, not with
`account not defined`. -/
theorem keychain_list_account_counterexample :
    bareItem.acct = none ∧
    (keychain_list (scripted (foundPassword []) ⟨0, 0, []⟩ (0, [bareItem])) ()
      Heap.empty "Docker Credentials".toList noListOut).err = none ∧
    (keychain_list (scripted (foundPassword []) ⟨0, 0, []⟩ (0, [bareItem])) ()
      Heap.empty "Docker Credentials".toList noListOut).out.accts = some 1 ∧
    (keychain_list (scripted (foundPassword []) ⟨0, 0, []⟩ (0, [bareItem])) ()
      Heap.empty "Docker Credentials".toList noListOut).heap.slot 1 0 = some 3 ∧
    (keychain_list (scripted (foundPassword []) ⟨0, 0, []⟩ (0, [bareItem])) ()
      Heap.empty "Docker Credentials".toList noListOut).heap.cells 3
        = some (Block.chars 1 "0".toList) ∧
    (keychain_list (scripted (foundPassword []) ⟨0, 0, []⟩ (0, [bareItem])) ()
      Heap.empty "Docker Credentials".toList noListOut).heap.cstrAt 3
        ≠ some "account not defined".toList := by
  decide

/-- C6, amended.  For every matched item that has a protocol attribute: when it
has no account attribute, the account string `keychain_list` stores for it is
`account not defined`; when it has one, the account string is the C string of
that attribute, the attribute itself when it holds no NUL character. -/
theorem keychain_list_account_string {σ ι : Type} (P : Platform σ ι) (k : σ) (h : Heap)
    (credsLabel : List Char) (out : ListOut)
    (hq : (P.SecItemCopyMatching k (cstr credsLabel)).1 = 0)
    (i : Nat) (hi : i < (matchedItems P k credsLabel).length) (protocol : CFString)
    (hp : ((matchedItems P k credsLabel).get ⟨i, hi⟩).ptcl = some protocol) :
    ∃ ap a,
      (keychain_list P k h credsLabel out).out.accts = some ap ∧
      (keychain_list P k h credsLabel out).heap.slot ap i = some a ∧
      (((matchedItems P k credsLabel).get ⟨i, hi⟩).acct = none →
        (keychain_list P k h credsLabel out).heap.cstrAt a
          = some "account not defined".toList) ∧
      (∀ acct, ((matchedItems P k credsLabel).get ⟨i, hi⟩).acct = some acct →
        (keychain_list P k h credsLabel out).heap.cstrAt a = some (cstr acct) ∧
        (NUL ∉ acct → (keychain_list P k h credsLabel out).heap.cstrAt a = some acct)) := by
  obtain ⟨_, _, e3, _, _, ps, qs, _, _, _, _, hent, _, _, _⟩ :=
    keychain_list_entries P k h credsLabel out hq
  obtain ⟨p, a, _, h2, _, _, _, h6⟩ := hent i hi
  simp only [matchedItems] at hp
  simp only [acctBlock, hp] at h6
  have hstr := Heap.cstrAt_of_cells h6 (NUL_mem_append_singleton _)
  rw [cstr_append_NUL, cstr_idem] at hstr
  refine ⟨h.next + 1, a, e3, h2, ?_, ?_⟩
  · intro hnone
    simp only [matchedItems] at hnone
    rw [hstr]
    simp only [acctString, hnone]
    exact congrArg some (cstr_of_no_NUL (by decide))
  · intro acct hsome
    simp only [matchedItems] at hsome
    have : (keychain_list P k h credsLabel out).heap.cstrAt a = some (cstr acct) := by
      rw [hstr]
      simp only [acctString, hsome]
    refine ⟨this, fun hn => ?_⟩
    rw [this, cstr_of_no_NUL hn]

/-- Witness of C6, amended: an item with a protocol and no account, and one
with both. -/
theorem keychain_list_account_string_witness :
    ((scripted (foundPassword []) ⟨0, 0, []⟩
      (0, [protocolOnlyItem, aliceItem])).SecItemCopyMatching ()
      (cstr "Docker Credentials".toList)).1 = 0 ∧
    protocolOnlyItem.ptcl = some "http".toList ∧ protocolOnlyItem.acct = none ∧
    ∃ ap a,
      (keychain_list (scripted (foundPassword []) ⟨0, 0, []⟩ (0, [protocolOnlyItem, aliceItem]))
        () Heap.empty "Docker Credentials".toList noListOut).out.accts = some ap ∧
      (keychain_list (scripted (foundPassword []) ⟨0, 0, []⟩ (0, [protocolOnlyItem, aliceItem]))
        () Heap.empty "Docker Credentials".toList noListOut).heap.slot ap 0 = some a ∧
      (keychain_list (scripted (foundPassword []) ⟨0, 0, []⟩ (0, [protocolOnlyItem, aliceItem]))
        () Heap.empty "Docker Credentials".toList noListOut).heap.cstrAt a
          = some "account not defined".toList := by
  obtain ⟨ap, a, h1, h2, h3, _⟩ :=
    keychain_list_account_string
      (scripted (foundPassword []) ⟨0, 0, []⟩ (0, [protocolOnlyItem, aliceItem])) () Heap.empty
      "Docker Credentials".toList noListOut rfl 0 (by decide) "http".toList rfl
  exact ⟨rfl, rfl, rfl, ap, a, h1, h2, h3 rfl⟩

/-- C10 as stated fails: `freeListData` takes one array.  After a successful
`keychain_list` with one matched item, one call on `*paths` leaves the array
`*accts` and its string allocated, and one call on `*accts` leaves the array
`*paths` and its string allocated. -/
theorem freeListData_one_call_counterexample :
    (keychain_list (scripted (foundPassword []) ⟨0, 0, []⟩ (0, [aliceItem])) ()
      Heap.empty "Docker Credentials".toList noListOut).err = none ∧
    (keychain_list (scripted (foundPassword []) ⟨0, 0, []⟩ (0, [aliceItem])) ()
      Heap.empty "Docker Credentials".toList noListOut).out = ⟨some 0, some 1, 1⟩ ∧
    (keychain_list (scripted (foundPassword []) ⟨0, 0, []⟩ (0, [aliceItem])) ()
      Heap.empty "Docker Credentials".toList noListOut).heap.slot 0 0 = some 4 ∧
    (keychain_list (scripted (foundPassword []) ⟨0, 0, []⟩ (0, [aliceItem])) ()
      Heap.empty "Docker Credentials".toList noListOut).heap.slot 1 0 = some 5 ∧
    (freeListData
      (keychain_list (scripted (foundPassword []) ⟨0, 0, []⟩ (0, [aliceItem])) ()
        Heap.empty "Docker Credentials".toList noListOut).heap 0 1).cells 1
      = some (Block.slots [some 5]) ∧
    (freeListData
      (keychain_list (scripted (foundPassword []) ⟨0, 0, []⟩ (0, [aliceItem])) ()
        Heap.empty "Docker Credentials".toList noListOut).heap 0 1).cells 5
      = some (Block.chars 6 ("alice".toList ++ [NUL])) ∧
    (freeListData
      (keychain_list (scripted (foundPassword []) ⟨0, 0, []⟩ (0, [aliceItem])) ()
        Heap.empty "Docker Credentials".toList noListOut).heap 1 1).cells 0
      = some (Block.slots [some 4]) ∧
    (freeListData
      (keychain_list (scripted (foundPassword []) ⟨0, 0, []⟩ (0, [aliceItem])) ()
        Heap.empty "Docker Credentials".toList noListOut).heap 1 1).cells 4
      = some (Block.chars 28 ("https://example.com/v1/:443".toList ++ [NUL])) := by
  decide

/-- C10, amended.  After a successful `keychain_list` with count `N` (within
the range of the `int` loop index), one call of `freeListData` on `*paths`
with that count frees every string of that array and the array itself and
leaves `*accts` and its strings as they were; a second call, on `*accts`,
frees every string of that array and the array itself.  No block is freed
twice and no invalid pointer is freed (the fault flag is unchanged), after
the two calls every string of the two arrays and the two arrays themselves
are free, and what was allocated before `keychain_list` is untouched. -/
theorem freeListData_releases_each_array {σ ι : Type} (P : Platform σ ι) (k : σ) (h : Heap)
    (credsLabel : List Char) (out : ListOut)
    (hq : (P.SecItemCopyMatching k (cstr credsLabel)).1 = 0)
    (hN : (matchedItems P k credsLabel).length < 2 ^ 31) :
    ∃ pp ap,
      (keychain_list P k h credsLabel out).out.paths = some pp ∧
      (keychain_list P k h credsLabel out).out.accts = some ap ∧
      (freeListData (keychain_list P k h credsLabel out).heap pp
        (keychain_list P k h credsLabel out).out.list_l).fault = h.fault ∧
      (freeListData (keychain_list P k h credsLabel out).heap pp
        (keychain_list P k h credsLabel out).out.list_l).cells pp = none ∧
      (freeListData (keychain_list P k h credsLabel out).heap pp
        (keychain_list P k h credsLabel out).out.list_l).cells ap =
          (keychain_list P k h credsLabel out).heap.cells ap ∧
      (∀ i p, i < (matchedItems P k credsLabel).length →
        (keychain_list P k h credsLabel out).heap.slot pp i = some p →
        (freeListData (keychain_list P k h credsLabel out).heap pp
          (keychain_list P k h credsLabel out).out.list_l).cells p = none) ∧
      (∀ i a, i < (matchedItems P k credsLabel).length →
        (keychain_list P k h credsLabel out).heap.slot ap i = some a →
        (freeListData (keychain_list P k h credsLabel out).heap pp
          (keychain_list P k h credsLabel out).out.list_l).cells a =
            (keychain_list P k h credsLabel out).heap.cells a ∧
        (keychain_list P k h credsLabel out).heap.cells a ≠ none) ∧
      (freeListData
        (freeListData (keychain_list P k h credsLabel out).heap pp
          (keychain_list P k h credsLabel out).out.list_l) ap
        (keychain_list P k h credsLabel out).out.list_l).fault = h.fault ∧
      (freeListData
        (freeListData (keychain_list P k h credsLabel out).heap pp
          (keychain_list P k h credsLabel out).out.list_l) ap
        (keychain_list P k h credsLabel out).out.list_l).cells pp = none ∧
      (freeListData
        (freeListData (keychain_list P k h credsLabel out).heap pp
          (keychain_list P k h credsLabel out).out.list_l) ap
        (keychain_list P k h credsLabel out).out.list_l).cells ap = none ∧
      (∀ i p, i < (matchedItems P k credsLabel).length →
        (keychain_list P k h credsLabel out).heap.slot pp i = some p →
        (freeListData
          (freeListData (keychain_list P k h credsLabel out).heap pp
            (keychain_list P k h credsLabel out).out.list_l) ap
          (keychain_list P k h credsLabel out).out.list_l).cells p = none) ∧
      (∀ i a, i < (matchedItems P k credsLabel).length →
        (keychain_list P k h credsLabel out).heap.slot ap i = some a →
        (freeListData
          (freeListData (keychain_list P k h credsLabel out).heap pp
            (keychain_list P k h credsLabel out).out.list_l) ap
          (keychain_list P k h credsLabel out).out.list_l).cells a = none) ∧
      (∀ q, q < h.next →
        (freeListData
          (freeListData (keychain_list P k h credsLabel out).heap pp
            (keychain_list P k h credsLabel out).out.list_l) ap
          (keychain_list P k h credsLabel out).out.list_l).cells q = h.cells q) := by
  obtain ⟨_, e2, e3, e4, e5, ps, qs, hpl, hql, hcp, hca, hent, hrng, hnd, hfr⟩ :=
    keychain_list_entries P k h credsLabel out hq
  have hcount : (keychain_list P k h credsLabel out).out.list_l = ps.length := by
    rw [e4, hpl]
    exact Nat.mod_eq_of_lt (lt_trans hN (by decide))
  have hcount' : ps.length = qs.length := by rw [hpl, hql]
  obtain ⟨ndp, ndq, hdisj⟩ := List.nodup_append.mp hnd
  have hpp : h.next ∉ ps := fun hx => by
    have := (hrng h.next (List.mem_append_left _ hx)).1; omega
  have hpq : h.next ∉ qs := fun hx => by
    have := (hrng h.next (List.mem_append_right _ hx)).1; omega
  have hap : h.next + 1 ∉ ps := fun hx => by
    have := (hrng (h.next + 1) (List.mem_append_left _ hx)).1; omega
  have haq : h.next + 1 ∉ qs := fun hx => by
    have := (hrng (h.next + 1) (List.mem_append_right _ hx)).1; omega
  have hlp : ∀ p ∈ ps, ∃ b, (keychain_list P k h credsLabel out).heap.cells p = some b :=
    fun p hp => (hrng p (List.mem_append_left _ hp)).2
  have hlq : ∀ p ∈ qs, ∃ b, (keychain_list P k h credsLabel out).heap.cells p = some b :=
    fun p hp => (hrng p (List.mem_append_right _ hp)).2
  rw [hcount]
  obtain ⟨a1, a2, a3, a4, a5⟩ := freeListData_spec hcp hpp ndp hlp
  have hca1 : (freeListData (keychain_list P k h credsLabel out).heap h.next ps.length).cells
      (h.next + 1) = some (Block.slots (qs.map some)) := by
    rw [a5 _ (by omega) hap, hca]
  have hlq1 : ∀ p ∈ qs, ∃ b,
      (freeListData (keychain_list P k h credsLabel out).heap h.next ps.length).cells p
        = some b := by
    intro p hp
    rw [a5 p (fun e => hpq (e ▸ hp)) (fun hx => hdisj hx hp)]
    exact hlq p hp
  obtain ⟨b1, b2, b3, b4, b5⟩ := freeListData_spec hca1 haq ndq hlq1
  rw [← hcount'] at b1 b2 b3 b4 b5
  have memP : ∀ i p, i < (matchedItems P k credsLabel).length →
      (keychain_list P k h credsLabel out).heap.slot h.next i = some p → p ∈ ps := by
    intro i p hi hs
    obtain ⟨p', _, h1, _, h3, _, _, _⟩ := hent i hi
    rw [h1] at hs
    exact Option.some.inj hs ▸ h3
  have memQ : ∀ i a, i < (matchedItems P k credsLabel).length →
      (keychain_list P k h credsLabel out).heap.slot (h.next + 1) i = some a → a ∈ qs := by
    intro i a hi hs
    obtain ⟨_, a', _, h2, _, h4, _, _⟩ := hent i hi
    rw [h2] at hs
    exact Option.some.inj hs ▸ h4
  refine ⟨h.next, h.next + 1, e2, e3, by rw [a1, e5], a3, by rw [a5 _ (by omega) hap], ?_, ?_,
    by rw [b1, a1, e5], ?_, b3, ?_, ?_, ?_⟩
  · intro i p hi hs
    exact a4 p (memP i p hi hs)
  · intro i a hi hs
    have ha := memQ i a hi hs
    refine ⟨a5 a (fun e => hpq (e ▸ ha)) (fun hx => hdisj hx ha), ?_⟩
    obtain ⟨b, hb⟩ := hlq a ha
    rw [hb]
    exact Option.some_ne_none b
  · rw [b5 _ (by omega) hpq, a3]
  · intro i p hi hs
    have hp := memP i p hi hs
    rw [b5 p (fun e => hap (e ▸ hp)) (fun hx => hdisj hp hx)]
    exact a4 p hp
  · intro i a hi hs
    exact b4 a (memQ i a hi hs)
  · intro q hq'
    have q1 : q ∉ ps := fun hx => by
      have := (hrng q (List.mem_append_left _ hx)).1; omega
    have q2 : q ∉ qs := fun hx => by
      have := (hrng q (List.mem_append_right _ hx)).1; omega
    rw [b5 q (by omega) q2, a5 q (by omega) q1, hfr q hq']

/-- Witness of C10, amended: two matched items, one of them a placeholder. -/
theorem freeListData_releases_each_array_witness :
    ((scripted (foundPassword []) ⟨0, 0, []⟩ (0, [aliceItem, bareItem])).SecItemCopyMatching ()
      (cstr "Docker Credentials".toList)).1 = 0 ∧
    (matchedItems (scripted (foundPassword []) ⟨0, 0, []⟩ (0, [aliceItem, bareItem])) ()
      "Docker Credentials".toList).length < 2 ^ 31 ∧
    ∃ pp ap,
      (keychain_list (scripted (foundPassword []) ⟨0, 0, []⟩ (0, [aliceItem, bareItem])) ()
        Heap.empty "Docker Credentials".toList noListOut).out.paths = some pp ∧
      (keychain_list (scripted (foundPassword []) ⟨0, 0, []⟩ (0, [aliceItem, bareItem])) ()
        Heap.empty "Docker Credentials".toList noListOut).out.accts = some ap ∧
      (freeListData
        (freeListData
          (keychain_list (scripted (foundPassword []) ⟨0, 0, []⟩ (0, [aliceItem, bareItem])) ()
            Heap.empty "Docker Credentials".toList noListOut).heap pp
          (keychain_list (scripted (foundPassword []) ⟨0, 0, []⟩ (0, [aliceItem, bareItem])) ()
            Heap.empty "Docker Credentials".toList noListOut).out.list_l) ap
        (keychain_list (scripted (foundPassword []) ⟨0, 0, []⟩ (0, [aliceItem, bareItem])) ()
          Heap.empty "Docker Credentials".toList noListOut).out.list_l).fault = false := by
  obtain ⟨pp, ap, h1, h2, _, _, _, _, _, h8, _⟩ :=
    freeListData_releases_each_array
      (scripted (foundPassword []) ⟨0, 0, []⟩ (0, [aliceItem, bareItem])) () Heap.empty
      "Docker Credentials".toList noListOut rfl (by decide)
  exact ⟨rfl, by decide, pp, ap, h1, h2, h8⟩

theorem get_error_frame {σ ι : Type} (P : Platform σ ι) (h : Heap) (status : OSStatus)
    (q : Nat) (hq : q ≠ h.next) : (get_error P h status).2.cells q = h.cells q := by
  have hl : (strncpy "Unknown error".toList 128).length ≤ 128 := by
    rw [show strncpy "Unknown error".toList 128
      = "Unknown error".toList ++ List.replicate 115 NUL by decide]
    simp
  have hm : (h.malloc 128).2.cells (h.malloc 128).1 = some (Block.chars 128 []) := by
    simp [Heap.malloc, Heap.set]
  have hfr : ∀ bytes : List Char, bytes.length ≤ 128 →
      ((h.malloc 128).2.write (h.malloc 128).1 bytes).cells q = h.cells q := by
    intro bytes hb
    rw [Heap.write_eq bytes hm hb]
    simp [Heap.set, Heap.malloc, hq]
  unfold get_error CFStringGetCString
  cases P.SecCopyErrorMessageString status with
  | none => exact hfr _ hl
  | some msg =>
    by_cases hlen : msg.length + 1 ≤ 128
    · simp only [hlen, if_true]
      exact hfr _ (by simpa using hlen)
    · simp only [hlen, if_false]
      exact hfr _ hl

/-- C7 as stated fails: `keychain_get` discards the status that
`SecKeychainItemFreeContent` returns.  On a platform where that call returns
`errSecParam` and every other call returns zero, `keychain_get` returns NULL,
and the log of its calls shows the call that returned a non-zero status
followed by further calls. -/
theorem free_content_status_counterexample :
    (keychain_get
      (withFreeStatus (scripted (foundPassword "s3cret".toList) ⟨0, 3, "bob".toList⟩ (0, []))
        errSecParam)
      () Heap.empty exampleServer noGetOut).err = none ∧
    (keychain_get
      (traced
        (withFreeStatus (scripted (foundPassword "s3cret".toList) ⟨0, 3, "bob".toList⟩ (0, []))
          errSecParam))
      ((), []) Heap.empty exampleServer noGetOut).err = none ∧
    (keychain_get
      (traced
        (withFreeStatus (scripted (foundPassword "s3cret".toList) ⟨0, 3, "bob".toList⟩ (0, []))
          errSecParam))
      ((), []) Heap.empty exampleServer noGetOut).keychain.2 =
        [Call.findInternetPassword 0, Call.itemFreeContent errSecParam, Call.itemCopyContent 0,
          Call.itemFreeContent errSecParam] ∧
    errSecParam ≠ 0 := by
  decide

/-- C7, amended.  Each of `keychain_add`, `keychain_get`, `keychain_delete` and
`keychain_list`, run on any platform with its keychain calls logged, returns
the same as without the log, and: it returns NULL exactly when every logged
call whose status the bridge reads (every call but
`SecKeychainItemFreeContent`) returned zero; when it returns an error, the
call that returned the first non-zero status that is read is the last call
of the log, and the error is the message `get_error` gives for that status.
For `keychain_add` the log is the insert alone, with a non-zero status and
an error returned, or the insert with status zero followed by the label
update, and then the result is NULL exactly when the label update returned
zero. -/
theorem null_iff_every_read_status_zero {σ ι : Type} (P : Platform σ ι) (k : σ) (h : Heap)
    (server : Server) (label username secret credsLabel : List Char) (gout : GetOut)
    (lout : ListOut) :
    (ReportsFirstFailure P (keychain_add (traced P) (k, []) h server label username secret) ∧
      (keychain_add (traced P) (k, []) h server label username secret).err =
        (keychain_add P k h server label username secret).err) ∧
    (ReportsFirstFailure P (keychain_get (traced P) (k, []) h server gout) ∧
      (keychain_get (traced P) (k, []) h server gout).err =
        (keychain_get P k h server gout).err) ∧
    (ReportsFirstFailure P (keychain_delete (traced P) (k, []) h server) ∧
      (keychain_delete (traced P) (k, []) h server).err = (keychain_delete P k h server).err) ∧
    (ReportsFirstFailure P (keychain_list (traced P) (k, []) h credsLabel lout) ∧
      (keychain_list (traced P) (k, []) h credsLabel lout).err =
        (keychain_list P k h credsLabel lout).err) ∧
    ((∃ s, s ≠ 0 ∧
        (keychain_add (traced P) (k, []) h server label username secret).keychain.2 =
          [Call.addInternetPassword s] ∧
        (keychain_add (traced P) (k, []) h server label username secret).err ≠ none) ∨
      (∃ s,
        (keychain_add (traced P) (k, []) h server label username secret).keychain.2 =
          [Call.addInternetPassword 0, Call.itemModifyContent s] ∧
        ((keychain_add (traced P) (k, []) h server label username secret).err = none ↔ s = 0))) :=
  ⟨⟨keychain_add_reports P k h server label username secret,
      (keychain_add_traced P k [] h server label username secret).1⟩,
    ⟨keychain_get_reports P k h server gout, (keychain_get_traced P k [] h server gout).1⟩,
    ⟨keychain_delete_reports P k h server, (keychain_delete_traced P k [] h server).1⟩,
    ⟨keychain_list_reports P k h credsLabel lout,
      (keychain_list_traced P k [] h credsLabel lout).1⟩,
    keychain_add_calls P k h server label username secret⟩

set_option maxRecDepth 8000 in
/-- C9 as stated fails: when the search succeeds and the copy of the account
attribute fails, `keychain_get` returns an error and has already stored the
address of a copy of the secret in `*secret`. -/
theorem keychain_get_secret_counterexample :
    (keychain_get (scripted (foundPassword "s3cret".toList) ⟨errSecInvalidItemRef, 0, []⟩ (0, []))
      () Heap.empty exampleServer noGetOut).err ≠ none ∧
    noGetOut.secret = none ∧
    (keychain_get (scripted (foundPassword "s3cret".toList) ⟨errSecInvalidItemRef, 0, []⟩ (0, []))
      () Heap.empty exampleServer noGetOut).out.secret = some 0 ∧
    (keychain_get (scripted (foundPassword "s3cret".toList) ⟨errSecInvalidItemRef, 0, []⟩ (0, []))
      () Heap.empty exampleServer noGetOut).heap.cells 0
        = some (Block.chars 7 ("s3cret".toList ++ [NUL])) := by
  decide

/-- C9, amended.  Whenever `keychain_list` returns an error, `*paths`, `*accts`
and `*list_l` are as before the call.  Whenever `keychain_get` returns an
error, `*username` and `*username_l` are as before the call; `*secret` is as
before the call when the search is the call that failed, and holds the
address of a fresh copy of the password data found when the search succeeded
and the copy of the account attribute failed. -/
theorem outputs_on_error {σ ι : Type} (P : Platform σ ι) (k : σ) (h : Heap) (server : Server)
    (credsLabel : List Char) (gout : GetOut) (lout : ListOut) :
    ((keychain_list P k h credsLabel lout).err ≠ none →
      (keychain_list P k h credsLabel lout).out = lout) ∧
    ((keychain_get P k h server gout).err ≠ none →
      (keychain_get P k h server gout).out.username = gout.username ∧
      (keychain_get P k h server gout).out.username_l = gout.username_l ∧
      ((P.SecKeychainFindInternetPassword k (strArg server.host) (strArg server.path) (portArg server)
          server.proto true).1.status ≠ 0 →
        (keychain_get P k h server gout).out.secret = gout.secret) ∧
      ((P.SecKeychainFindInternetPassword k (strArg server.host) (strArg server.path) (portArg server)
          server.proto true).1.status = 0 →
        (keychain_get P k h server gout).out.secret = some h.next ∧
        (keychain_get P k h server gout).heap.cells h.next =
          some (Block.chars
            (strlen (P.SecKeychainFindInternetPassword k (strArg server.host) (strArg server.path)
              (portArg server) server.proto true).1.passwordData + 1)
            (cstr (P.SecKeychainFindInternetPassword k (strArg server.host) (strArg server.path)
              (portArg server) server.proto true).1.passwordData ++ [NUL])))) := by
  refine ⟨?_, ?_⟩
  · unfold keychain_list
    simp only []
    split_ifs with h1
    · intro _; rfl
    · intro hc; exact absurd rfl hc
  · unfold keychain_get
    simp only [Heap.strdup_eq]
    split_ifs with h1 h2
    · intro _
      exact ⟨rfl, rfl, fun _ => rfl, fun h0 => absurd h0 h1⟩
    · intro _
      refine ⟨rfl, rfl, fun h0 => absurd h0 h1, fun _ => ⟨rfl, ?_⟩⟩
      rw [get_error_frame _ _ _ _ (by simp)]
      simp
    · intro hc; exact absurd rfl hc

/-- Witness of C9, amended: the run in which the copy of the account fails. -/
theorem outputs_on_error_witness :
    (keychain_get (scripted (foundPassword "s3cret".toList) ⟨errSecInvalidItemRef, 0, []⟩ (0, []))
      () Heap.empty exampleServer noGetOut).err ≠ none ∧
    (keychain_get (scripted (foundPassword "s3cret".toList) ⟨errSecInvalidItemRef, 0, []⟩ (0, []))
      () Heap.empty exampleServer noGetOut).out.username = noGetOut.username :=
  ⟨by decide,
    ((outputs_on_error
      (scripted (foundPassword "s3cret".toList) ⟨errSecInvalidItemRef, 0, []⟩ (0, []))
      () Heap.empty exampleServer [] noGetOut noListOut).2 (by decide)).1⟩

end OSXKeychain
